import Mathlib

/-!
Verification development for the epubstandard EPUB repair engine
(src/epubstandard.py).  Python strings are embedded as `List Char`;
the mutable lxml document trees are embedded as explicit records whose
fields are the projections the engine's own queries read and write
(text content, id / href / role / class attributes, body text samples).
All definitions are executable.
-/

namespace EpubStd

abbrev Str := List Char

/-- Python `\s` on the ASCII range (the engine's regexes run on OCR text). -/
def isWsC (c : Char) : Bool :=
  c = ' ' || c = '\t' || c = '\n' || c = '\r' || c = '\x0b' || c = '\x0c'

/-- ASCII digit test, used for the `\d` character class. -/
def isDigitC (c : Char) : Bool := '0' ≤ c && c ≤ '9'

/-- Python `\w` restricted to ASCII (letters, digits, underscore).  The source
runs Unicode-aware `re`, but every string the claims quantify over is ASCII,
where the two classes agree. -/
def isWordC (c : Char) : Bool :=
  ('a' ≤ c && c ≤ 'z') || ('A' ≤ c && c ≤ 'Z') || isDigitC c || c = '_'

/-- ASCII lower-casing, the fragment of Python `str.lower` used here. -/
def lowerC (c : Char) : Char :=
  if 'A' ≤ c && c ≤ 'Z' then Char.ofNat (c.toNat + 32) else c

def lowerS (s : Str) : Str := s.map lowerC

/-- The decimal digit characters used when the engine renders a sequence
number into an id (`f-string` interpolation of an `int`). -/
def digitChar : Nat → Char
  | 0 => '0' | 1 => '1' | 2 => '2' | 3 => '3' | 4 => '4'
  | 5 => '5' | 6 => '6' | 7 => '7' | 8 => '8' | _ => '9'

/-- Decimal rendering of a natural number (Python `str(int)`). -/
def natRepr (n : Nat) : Str :=
  if _h : n < 10 then [digitChar n]
  else natRepr (n / 10) ++ [digitChar (n % 10)]
  decreasing_by exact Nat.div_lt_self (by omega) (by omega)

/-!
Association lists embed Python dicts: lookup takes the first hit, assignment
updates in place or appends, matching insertion-ordered dict semantics.
-/
def alGet {α : Type} (m : List (Str × α)) (k : Str) (d : α) : α :=
  match m with
  | [] => d
  | (k', v) :: rest => if k' = k then v else alGet rest k d

def alSet {α : Type} (m : List (Str × α)) (k : Str) (v : α) : List (Str × α) :=
  match m with
  | [] => [(k, v)]
  | (k', v') :: rest => if k' = k then (k, v) :: rest else (k', v') :: alSet rest k v

def appendIfAbsent (l : List Str) (v : Str) : List Str :=
  if v ∈ l then l else l ++ [v]

/-- String constants interpolated by `ensure_ids_for` and its callers. -/
def refDash : Str := ['r', 'e', 'f', '-']

def dashOne : Str := ['-', '1']

def noteDash : Str := ['n', 'o', 't', 'e', '-']

/-- One of the two per-category dict pairs (`num_seq`/`numeric_ref_ids` or
`sym_seq`/`symbol_ref_ids`) threaded through `ensure_ids_for`. -/
structure IdMaps where
  seq : List (Str × Nat)
  ids : List (Str × List Str)
  deriving DecidableEq

def IdMaps.empty : IdMaps := ⟨[], []⟩

/-- Core of `ensure_ids_for` (epubstandard.py lines 424-461): bump the per-key
sequence counter, choose the element id (`ref-<key>` for the first occurrence,
`ref-<key>-<seq>` afterwards, keeping a pre-existing id when present), record
ids in the per-key list, and report the id to set on the element (`some` only
when the element had none).  Returns (new maps, returned id, id to set). -/
def ensureIdsCore (st : IdMaps) (key : Str) (ridExisting : Option Str) :
    IdMaps × Str × Option Str :=
  let seq := alGet st.seq key 0 + 1
  let seqMap := alSet st.seq key seq
  if seq = 1 then
    let ridFirst := ridExisting.getD (refDash ++ key)
    let toSet : Option Str := if ridExisting = none then some ridFirst else none
    let ridSeq := if dashOne.isSuffixOf ridFirst then ridFirst
                  else refDash ++ key ++ dashOne
    let cur := appendIfAbsent (alGet st.ids key []) ridFirst
    let cur := if ridSeq ≠ ridFirst then appendIfAbsent cur ridSeq else cur
    (⟨seqMap, alSet st.ids key cur⟩, ridFirst, toSet)
  else
    let ridSeq := ridExisting.getD (refDash ++ key ++ '-' :: natRepr seq)
    let toSet : Option Str := if ridExisting = none then some ridSeq else none
    let cur := appendIfAbsent (alGet st.ids key []) ridSeq
    (⟨seqMap, alSet st.ids key cur⟩, ridSeq, toSet)

/-- The pair of dict pairs of `ensure_bidirectional_links_per_file`:
numeric (`num_seq`, `numeric_ref_ids`) and symbolic (`sym_seq`,
`symbol_ref_ids`) live in disjoint namespaces. -/
structure IdState where
  num : IdMaps
  sym : IdMaps
  deriving DecidableEq

def IdState.empty : IdState := ⟨IdMaps.empty, IdMaps.empty⟩

/-- Dispatch of `ensure_ids_for` on `is_numeric`. -/
def ensureIdsFor (st : IdState) (key : Str) (isNumeric : Bool)
    (ridExisting : Option Str) : IdState × Str × Option Str :=
  if isNumeric then
    let r := ensureIdsCore st.num key ridExisting
    (⟨r.1, st.sym⟩, r.2)
  else
    let r := ensureIdsCore st.sym key ridExisting
    (⟨st.num, r.1⟩, r.2)

/-- The ids assigned by a sequence of `ensure_ids_for` calls on elements
that carry no pre-existing id — the trace of a document pass in which every
matched reference lacked an `id` attribute.  Each event is (key, is_numeric). -/
def runIds (st : IdState) : List (Str × Bool) → List Str
  | [] => []
  | e :: evs =>
    let r := ensureIdsFor st e.1 e.2 none
    r.2.1 :: runIds r.1 evs

/-- The id scheme the specification describes: `ref-<key>` for the first
occurrence of a key, `ref-<key>-<n>` for the n-th. -/
def specRefId (key : Str) (n : Nat) : Str :=
  if n = 1 then refDash ++ key else refDash ++ key ++ '-' :: natRepr n

/-- The four symbolic marker keys (`SYMBOLS.values()`). -/
def starS : Str := ['s', 't', 'a', 'r']

def daggerS : Str := ['d', 'a', 'g', 'g', 'e', 'r']

def ddaggerS : Str := ['d', 'o', 'u', 'b', 'l', 'e', '-', 'd', 'a', 'g', 'g', 'e', 'r']

def caretS : Str := ['c', 'a', 'r', 'e', 't']

def symNames : List Str := [starS, daggerS, ddaggerS, caretS]

/-- A key actually passed to `ensure_ids_for`: a nonempty digit string when
numeric (extracted by `re.sub(r'\D+','',...)` or `MIXED_SYM_RE`), otherwise
one of the four symbol names from `SYMBOLS`. -/
def validEv : Str × Bool → Prop
  | (k, true) => k ≠ [] ∧ ∀ c ∈ k, isDigitC c = true
  | (k, false) => k ∈ symNames

/-- `SOFT_HYPHEN = '­'`. -/
def softHyphen : Char := '­'

/-- `COMMON_COMPOUND_KEEP`: hyphenated compounds whose hyphen survives
line-wrap dehyphenation. -/
def COMMON_COMPOUND_KEEP : List Str :=
  ["co-founder".data, "co-operate".data, "co-operation".data, "re-entry".data,
   "re-issue".data, "re-iterate".data, "re-open".data, "re-creation".data,
   "pre-existing".data, "pre-eminent".data, "pre-empt".data, "post-war".data,
   "cross-examine".data, "long-term".data, "short-term".data]

/-- One attempt of the pattern `(\w+)-\s*\n\s*(\w+)` at the current position:
a maximal nonempty word run, a hyphen, a whitespace run containing a line
break, then a maximal nonempty word run.  Returns the two groups and the
remainder after the match. -/
def matchDehyph (s : Str) : Option (Str × Str × Str) :=
  let w1 := s.takeWhile isWordC
  if w1 = [] then none
  else
    match s.dropWhile isWordC with
    | '-' :: rest =>
      let ws := rest.takeWhile isWsC
      if '\n' ∈ ws then
        let after := rest.dropWhile isWsC
        let w2 := after.takeWhile isWordC
        if w2 = [] then none
        else some (w1, w2, after.dropWhile isWordC)
      else none
    | _ => none

/-- Replacement of the first `re.sub` in `_fix_text`: keep the hyphen when the
joined lowercase form is on the allow-list, else join the fragments. -/
def dehyphRepl (w1 w2 : Str) : Str :=
  if lowerS (w1 ++ '-' :: w2) ∈ COMMON_COMPOUND_KEEP then w1 ++ '-' :: w2
  else w1 ++ w2

/-- Left-to-right non-overlapping substitution, as `re.sub` performs it; the
fuel is the input length (each step consumes at least one character). -/
def dehyphGo : Nat → Str → Str
  | 0, s => s
  | _ + 1, [] => []
  | fuel + 1, c :: rest =>
    match matchDehyph (c :: rest) with
    | some (w1, w2, rem) => dehyphRepl w1 w2 ++ dehyphGo fuel rem
    | none => c :: dehyphGo fuel rest

def dehyphSub (s : Str) : Str := dehyphGo s.length s

/-- One attempt of the pattern `(\w+)\s*\n\s*(\w+)` (newline join without a
hyphen) at the current position. -/
def matchJoin (s : Str) : Option (Str × Str × Str) :=
  let w1 := s.takeWhile isWordC
  if w1 = [] then none
  else
    let rest := s.dropWhile isWordC
    let ws := rest.takeWhile isWsC
    if '\n' ∈ ws then
      let after := rest.dropWhile isWsC
      let w2 := after.takeWhile isWordC
      if w2 = [] then none
      else some (w1, w2, after.dropWhile isWordC)
    else none

def joinGo : Nat → Str → Str
  | 0, s => s
  | _ + 1, [] => []
  | fuel + 1, c :: rest =>
    match matchJoin (c :: rest) with
    | some (w1, w2, rem) => (w1 ++ ' ' :: w2) ++ joinGo fuel rem
    | none => c :: joinGo fuel rest

def joinSub (s : Str) : Str := joinGo s.length s

/-- `_fix_text` (epubstandard.py lines 191-201): soft-hyphen removal, then
hyphen-newline dehyphenation guarded by the compound allow-list, then plain
newline joining with a space. -/
def fixText (txt : Str) : Str :=
  if txt = [] then txt
  else joinSub (dehyphSub (txt.filter (fun c => c ≠ softHyphen)))

/-- Collapse every whitespace run to a single space (`re.sub(r'\s+', ' ', s)`). -/
def squeezeWsGo (prevWs : Bool) : Str → Str
  | [] => []
  | c :: rest =>
    if isWsC c then
      if prevWs then squeezeWsGo true rest
      else ' ' :: squeezeWsGo true rest
    else c :: squeezeWsGo false rest

def squeezeWs (s : Str) : Str := squeezeWsGo false s

/-- Python `str.strip()` on the ASCII whitespace range. -/
def stripWs (s : Str) : Str :=
  ((s.dropWhile isWsC).reverse.dropWhile isWsC).reverse

/-- `re.sub(r'\s+', ' ', snippet).strip()` from `looks_like_banner`. -/
def collapseWs (s : Str) : Str := stripWs (squeezeWs s)

/-- Word-boundary test for the character preceding a match position. -/
def boundaryOk : Option Char → Bool
  | none => true
  | some c => !(isWordC c)

/-- Try a position-anchored predicate at every position of the string,
carrying the previous character for `\b` tests — the embedding of
`re.search`. -/
def scanWithPrev (p : Option Char → Str → Bool) : Option Char → Str → Bool
  | prev, [] => p prev []
  | prev, c :: rest => p prev (c :: rest) || scanWithPrev p (some c) rest

/-- After a whitespace run (`\s*`), the next character must be a digit. -/
def digitAfterWs (r : Str) : Bool :=
  match r.dropWhile isWsC with
  | c :: _ => isDigitC c
  | [] => false

/-- `\bISSN\b`, case-insensitively (the scan runs on the lowercased string). -/
def atISSN (prev : Option Char) (s : Str) : Bool :=
  boundaryOk prev && "issn".data.isPrefixOf s &&
    (match s.drop 4 with
     | [] => true
     | c :: _ => !(isWordC c))

def reISSN (s : Str) : Bool := scanWithPrev atISSN none (lowerS s)

/-- `\bVol(?:\.|ume)?\s*\d+`. -/
def atVol (prev : Option Char) (s : Str) : Bool :=
  boundaryOk prev && "vol".data.isPrefixOf s &&
    (let r := s.drop 3
     (match r with
      | '.' :: r2 => digitAfterWs r2
      | _ => false) ||
     (if "ume".data.isPrefixOf r then digitAfterWs (r.drop 3) else false) ||
     digitAfterWs r)

def reVol (s : Str) : Bool := scanWithPrev atVol none (lowerS s)

/-- `\bNo\.\s*\d+`. -/
def atNo (prev : Option Char) (s : Str) : Bool :=
  boundaryOk prev && "no.".data.isPrefixOf s && digitAfterWs (s.drop 3)

def reNo (s : Str) : Bool := scanWithPrev atNo none (lowerS s)

/-- `\b(Spring|Summer|Fall|Winter)\b\s+\d{4}`: after the season word at least
one whitespace character and then at least four consecutive digits. -/
def seasonTail (r : Str) : Bool :=
  match r with
  | c :: _ =>
    if isWsC c then 4 ≤ ((r.dropWhile isWsC).takeWhile isDigitC).length
    else false
  | [] => false

def atSeason (prev : Option Char) (s : Str) : Bool :=
  boundaryOk prev &&
    ((if "spring".data.isPrefixOf s then seasonTail (s.drop 6) else false) ||
     (if "summer".data.isPrefixOf s then seasonTail (s.drop 6) else false) ||
     (if "fall".data.isPrefixOf s then seasonTail (s.drop 4) else false) ||
     (if "winter".data.isPrefixOf s then seasonTail (s.drop 6) else false))

def reSeason (s : Str) : Bool := scanWithPrev atSeason none (lowerS s)

/-- `\bdoi:\s*10\.\d{4,9}/`: the digit run after `10.` must have between 4
and 9 digits and be followed by a slash. -/
def atDoi (prev : Option Char) (s : Str) : Bool :=
  boundaryOk prev && "doi:".data.isPrefixOf s &&
    (let r2 := (s.drop 4).dropWhile isWsC
     if "10.".data.isPrefixOf r2 then
       let r3 := r2.drop 3
       let run := r3.takeWhile isDigitC
       (4 ≤ run.length && run.length ≤ 9) &&
         (match r3.drop run.length with
          | '/' :: _ => true
          | _ => false)
     else false)

def reDoi (s : Str) : Bool := scanWithPrev atDoi none (lowerS s)

/-- Substring search, the embedding of Python `in` on strings and of plain
regex alternation without anchors. -/
def strContains (pat : Str) : Str → Bool
  | [] => pat.isPrefixOf []
  | c :: rest => pat.isPrefixOf (c :: rest) || strContains pat rest

/-- `journal|law review|harvard|yale|columbia|nyu|stanford`, case-insensitive
substring search. -/
def reJournal (s : Str) : Bool :=
  let l := lowerS s
  strContains "journal".data l || strContains "law review".data l ||
  strContains "harvard".data l || strContains "yale".data l ||
  strContains "columbia".data l || strContains "nyu".data l ||
  strContains "stanford".data l

/-- The boilerplate-signature disjunction of `looks_like_banner`. -/
def bannerSigs (s : Str) : Bool :=
  reISSN s || reVol s || reNo s || reSeason s || reDoi s || reJournal s

/-- `looks_like_banner` (epubstandard.py lines 566-580): collapse whitespace;
reject empty or over-120-character snippets; accept exactly when one of the
boilerplate signatures matches. -/
def looks_like_banner (snippet : Str) : Bool :=
  let s := collapseWs snippet
  if s = [] then false
  else if 120 < s.length then false
  else bannerSigs s

/-- An in-text note-reference element as `find_noterefs` sees it: visible
text, the `id` attribute, and the `href` of the anchor it is or contains
(`none` when the element holds no anchor). -/
structure RefNode where
  raw : Str
  rid : Option Str
  ahref : Option Str
  deriving DecidableEq

/-- A reference slot of a document: the element plus the two spans the mixed
symbol+number branch substitutes for its content when it fires. -/
structure RefSlot where
  node : RefNode
  mixedSplit : Option (RefNode × RefNode)
  deriving DecidableEq

/-- A `find_note_blocks` candidate element (an element carrying `id` or
`role`): tag name, `id`, `role`, visible-text length, and the anchors with
class `backlink` it contains, as (href, ref-id the anchor points back to). -/
structure NoteBlock where
  tag : Str
  nid : Option Str
  role : Option Str
  textLen : Nat
  backlinks : List (Str × Str)
  deriving DecidableEq

/-- A `symbol_targets_in_doc` candidate paragraph (p/div/li/aside/section
without id or role), with its `id` attribute and visible text.  In this
embedding these are disjoint from the note-block candidates. -/
structure Para where
  pid : Option Str
  text : Str
  deriving DecidableEq

/-- One spine content document.  The tree is embedded by the projections the
engine reads and writes.  The `softHyphens`, `lineWrapFixes`,
`illegitBreaks`, `emptyParaPairs` and `blacklistHits` fields project whether
(or how often) the corresponding normalizer fix would fire on the document
text; applying a fix consumes the projection.  `topSnippet`/`botSnippet` are
the `extract_banner_snippets` samples of the body text, `heading` the first
`h1` text (stripped).  `topBlanked`/`botBlanked`/`topKept`/`botKept` record
the banner pass's action on the document. -/
structure Doc where
  path : Str
  hasCharset : Bool
  refs : List RefSlot
  notes : List NoteBlock
  paras : List Para
  topSnippet : Str
  botSnippet : Str
  heading : Option Str
  softHyphens : Bool
  lineWrapFixes : Bool
  illegitBreaks : Nat
  emptyParaPairs : Bool
  blacklistHits : Nat
  topBlanked : Bool
  botBlanked : Bool
  topKept : Bool
  botKept : Bool
  deriving DecidableEq

def defaultDoc : Doc :=
  { path := [], hasCharset := false, refs := [], notes := [], paras := [],
    topSnippet := [], botSnippet := [], heading := none,
    softHyphens := false, lineWrapFixes := false, illegitBreaks := 0,
    emptyParaPairs := false, blacklistHits := 0,
    topBlanked := false, botBlanked := false, topKept := false,
    botKept := false }

instance : Inhabited Doc := ⟨defaultDoc⟩

/-- The banner configuration dict (`BANNER_CONF` keys). -/
structure BannerConf where
  enabled : Bool
  keep_first : Bool
  minRepeat : ℚ
  topChars : Nat
  botChars : Nat
  deriving DecidableEq

/-- `BANNER_CONF` defaults (`min_repeat_ratio = 0.6 = 3/5`, written with the
raw constructor so it evaluates inside the kernel). -/
def defaultBannerConf : BannerConf :=
  ⟨true, true, ⟨3, 5, by decide, by decide⟩, 150, 150⟩

/-- Kernel-computable form of the ratio test `r ≤ c / n` used below; the
source compares floats, embedded here as exact rational comparison by
cross-multiplication. -/
def ratioLe (r : ℚ) (c n : Nat) : Bool :=
  decide (r.num * (n : Int) ≤ (c : Int) * (r.den : Int))

/-- `snippet_matches_heading` from `remove_repeated_banners`: the snippet
(stripped) starts with the document's first `h1` text truncated to the
snippet length. -/
def snippetMatchesHeading (heading : Option Str) (s : Str) : Bool :=
  if s = [] then false
  else
    match heading with
    | none => false
    | some htxt =>
      if htxt = [] then false
      else (htxt.take (min htxt.length s.length)).isPrefixOf (stripWs s)

/-- Occurrences of a snippet among the banner candidates
(`Counter([t for t in tops if looks_like_banner(t)])[t]`). -/
def candCount (tops : List Str) (t : Str) : Nat :=
  (tops.filter looks_like_banner).count t

/-- Membership in `top_remove` / `bot_remove`: a candidate occurring at least
twice whose occurrence ratio over the spine length reaches the configured
minimum. -/
def qualifies (tops : List Str) (n : Nat) (minRepeat : ℚ) (t : Str) : Bool :=
  2 ≤ candCount tops t && ratioLe minRepeat (candCount tops t) n

/-- Condition for the top branch of the doc loop:
`t in top_remove and t and not snippet_matches_heading(t)`. -/
def topHitP (tops : List Str) (n : Nat) (conf : BannerConf) (doc : Doc) : Bool :=
  qualifies tops n conf.minRepeat doc.topSnippet && !(doc.topSnippet = []) &&
    !(snippetMatchesHeading doc.heading doc.topSnippet)

/-- Same for the bottom branch. -/
def botHitP (bots : List Str) (n : Nat) (conf : BannerConf) (doc : Doc) : Bool :=
  qualifies bots n conf.minRepeat doc.botSnippet && !(doc.botSnippet = []) &&
    !(snippetMatchesHeading doc.heading doc.botSnippet)

/-- Effect of the two branch bodies on one document: keep (counted) or blank.
Blanking sets the flag only when not a dry run (the source guards only the
text assignment with `dry_run`). -/
def bannerApply (topHit topKeep botHit botKeep dryRun : Bool) (doc : Doc) : Doc :=
  let doc1 := if topKeep then { doc with topKept := true }
    else if topHit then { doc with topBlanked := doc.topBlanked || !dryRun }
    else doc
  if botKeep then { doc1 with botKept := true }
  else if botHit then { doc1 with botBlanked := doc1.botBlanked || !dryRun }
  else doc1

/-- The doc loop of `remove_repeated_banners`; `seenT`/`seenB` accumulate the
snippets kept by `keep_first`.  Blanking is modelled by the
`topBlanked`/`botBlanked` flags (the engine blanks the first / last matching
text node of the body); the `removed` counter increments even on a dry run,
as in the source. -/
def bannerLoop (tops bots : List Str) (n : Nat) (conf : BannerConf)
    (dryRun : Bool) (seenT seenB : List Str) :
    List (Doc × Bool) → List (Doc × Bool) × Nat × Nat
  | [] => ([], 0, 0)
  | (doc, isX) :: rest =>
    let topHit := topHitP tops n conf doc
    let topKeep := topHit && conf.keep_first && !(seenT.contains doc.topSnippet)
    let botHit := botHitP bots n conf doc
    let botKeep := botHit && conf.keep_first && !(seenB.contains doc.botSnippet)
    let doc2 := bannerApply topHit topKeep botHit botKeep dryRun doc
    let seenT' := if topKeep then seenT ++ [doc.topSnippet] else seenT
    let seenB' := if botKeep then seenB ++ [doc.botSnippet] else seenB
    let r := bannerLoop tops bots n conf dryRun seenT' seenB' rest
    ((doc2, isX) :: r.1,
     r.2.1 + (if topHit && !topKeep then 1 else 0) +
       (if botHit && !botKeep then 1 else 0),
     r.2.2 + (if topKeep then 1 else 0) + (if botKeep then 1 else 0))

/-- `remove_repeated_banners` (epubstandard.py lines 592-682): disabled or
fewer than two spine documents means no action; otherwise sample top/bottom
snippets, count candidates, and walk the spine blanking qualifying snippets
while `keep_first` preserves the first unseen occurrence.  Returns the
updated documents and the (removed, kept) counters. -/
def remove_repeated_banners (docs : List (Doc × Bool)) (conf : BannerConf)
    (dryRun : Bool) : List (Doc × Bool) × Nat × Nat :=
  if !conf.enabled then (docs, 0, 0)
  else if docs.length < 2 then (docs, 0, 0)
  else
    let tops := docs.map (fun db => db.1.topSnippet)
    let bots := docs.map (fun db => db.1.botSnippet)
    bannerLoop tops bots docs.length conf dryRun [] [] docs

/-- Concrete spine for the banner scenarios: three documents sharing one
qualifying running-header snippet; the first document's `h1` equals the
start of the snippet. -/
def harvardTop : Str := "Harvard Law Review Vol. 12 No. 3".data

def mkBannerDoc (p : String) (top : Str) (hd : Option Str) : Doc :=
  { defaultDoc with
    path := p.data
    hasCharset := true
    topSnippet := top
    heading := hd }

def c4docs : List (Doc × Bool) :=
  [(mkBannerDoc "a.xhtml" harvardTop (some "Harvard Law Review".data), true),
   (mkBannerDoc "b.xhtml" harvardTop none, true),
   (mkBannerDoc "c.xhtml" harvardTop none, true)]

/-- Bottom-snippet analog of `mkBannerDoc`: the shared snippet sits at the
end of the body text. -/
def mkBannerBotDoc (p : String) (bot : Str) (hd : Option Str) : Doc :=
  { defaultDoc with
    path := p.data
    hasCharset := true
    botSnippet := bot
    heading := hd }

def c4botdocs : List (Doc × Bool) :=
  [(mkBannerBotDoc "a.xhtml" harvardTop (some "Harvard Law Review".data), true),
   (mkBannerBotDoc "b.xhtml" harvardTop none, true),
   (mkBannerBotDoc "c.xhtml" harvardTop none, true)]

/-- The run configuration (`Config` dataclass). -/
structure Config where
  inplace : Bool
  force : Bool
  dry_run : Bool
  banner : BannerConf
  audit : Bool
  blacklist_file : Option Str
  deriving DecidableEq

def lbraceC : Char := Char.ofNat 123

def rbraceC : Char := Char.ofNat 125

def jsonBool : Bool → Str
  | true => "true".data
  | false => "false".data

/-- The JSON string escaping relevant to path payloads (quotes and
backslashes; `json.dumps` additionally escapes control and non-ASCII
characters, which the hashed fields never contain here). -/
def jsonEscape : Str → Str
  | [] => []
  | c :: rest =>
    if c = '"' || c = '\\' then '\\' :: c :: jsonEscape rest
    else c :: jsonEscape rest

def jsonQuote (s : Str) : Str := '"' :: jsonEscape s ++ ['"']

/-- Stand-in for Python float `repr` inside `json.dumps`: any deterministic
rendering of the ratio (the claims depend only on which fields enter the
payload, not on the decimal notation). -/
def ratRepr (r : ℚ) : Str :=
  (if r.num < 0 then ['-'] else []) ++ natRepr r.num.natAbs ++ '/' :: natRepr r.den

/-- `json.dumps` of the banner dict with `sort_keys=True` (keys in order
bottom_chars, enabled, keep_first, min_repeat_ratio, top_chars). -/
def bannerPayload (b : BannerConf) : Str :=
  [lbraceC] ++ jsonQuote "bottom_chars".data ++ ": ".data ++ natRepr b.botChars ++
  ", ".data ++ jsonQuote "enabled".data ++ ": ".data ++ jsonBool b.enabled ++
  ", ".data ++ jsonQuote "keep_first".data ++ ": ".data ++ jsonBool b.keep_first ++
  ", ".data ++ jsonQuote "min_repeat_ratio".data ++ ": ".data ++ ratRepr b.minRepeat ++
  ", ".data ++ jsonQuote "top_chars".data ++ ": ".data ++ natRepr b.topChars ++
  [rbraceC]

/-- The serialized payload of `Config.hash` (epubstandard.py lines 52-59):
`json.dumps` with sorted keys of exactly the four fields inplace, banner,
audit, blacklist_file (`None` rendered as the empty string).  `force` and
`dry_run` are not part of the payload. -/
def configPayload (c : Config) : Str :=
  [lbraceC] ++ jsonQuote "audit".data ++ ": ".data ++ jsonBool c.audit ++
  ", ".data ++ jsonQuote "banner".data ++ ": ".data ++ bannerPayload c.banner ++
  ", ".data ++ jsonQuote "blacklist_file".data ++ ": ".data ++
    jsonQuote (c.blacklist_file.getD []) ++
  ", ".data ++ jsonQuote "inplace".data ++ ": ".data ++ jsonBool c.inplace ++
  [rbraceC]

/-- `Config.hash` applies SHA-256 to the payload and keeps 16 hex characters;
the hash function is abstracted as `f`, so every theorem below holds for the
real digest. -/
def configHashWith (f : Str → Str) (c : Config) : Str := f (configPayload c)

/-- Concrete configurations for witnesses: `cfgB` differs from `cfgA` exactly
in `force` and `dry_run`. -/
def cfgA : Config :=
  ⟨false, false, false, defaultBannerConf, false, none⟩

def cfgB : Config := { cfgA with force := true, dry_run := true }

/-- A `<meta>` element of the package-descriptor metadata: its `property`
attribute, its legacy `name` attribute, and its `content`. -/
structure OpfMeta where
  property : Option Str
  nameAttr : Option Str
  content : Str
  deriving DecidableEq

/-- The package descriptor, projected to the metadata the idempotency layer
reads and writes. -/
structure OpfTree where
  metas : List OpfMeta
  deriving DecidableEq

def MARKER_PROP : Str := "cleanup:processed-by".data

def TOOL_TAG : Str := "epubstandard v1.3.4".data

/-- `mark_idempotent` (epubstandard.py lines 1385-1399): drop previous
markers of `MARKER_PROP` and append a fresh meta whose content is
`TOOL_TAG (cfg_hash)`. -/
def mark_idempotent (t : OpfTree) (cfgHash : Str) : OpfTree :=
  { metas := t.metas.filter (fun m => ¬ m.property = some MARKER_PROP) ++
      [⟨some MARKER_PROP, none, TOOL_TAG ++ " (".data ++ cfgHash ++ ")".data⟩] }

/-- `already_processed` (lines 1401-1405): some marker meta whose content
contains both the fingerprint and the tool tag as substrings. -/
def already_processed (t : OpfTree) (cfgHash : Str) : Bool :=
  t.metas.any (fun m => m.property = some MARKER_PROP &&
    strContains cfgHash m.content && strContains TOOL_TAG m.content)

instance : Inhabited RefSlot := ⟨⟨⟨[], none, none⟩, none⟩⟩

instance : Inhabited NoteBlock := ⟨⟨[], none, none, 0, []⟩⟩

instance : Inhabited Para := ⟨⟨none, []⟩⟩

/-- `NOTE_ID_PATTERNS`: `^(fn|footnote|note)[-_]?\d+$` (which subsumes
`^note\d+$`) or `^\d+$`. -/
def noteIdPat (s : Str) : Bool :=
  let digitsNonempty := fun (r : Str) => !(r = []) && r.all isDigitC
  let tailOk := fun (r : Str) =>
    match r with
    | c :: r2 => if c = '-' || c = '_' then digitsNonempty r2 else digitsNonempty r
    | [] => false
  (if "fn".data.isPrefixOf s then tailOk (s.drop 2) else false) ||
  (if "footnote".data.isPrefixOf s then tailOk (s.drop 8) else false) ||
  (if "note".data.isPrefixOf s then tailOk (s.drop 4) else false) ||
  digitsNonempty s

/-- `is_note_block` (lines 284-297): reject `sup`/`a` tags, accept role
`doc-footnote`, else require an id matching `NOTE_ID_PATTERNS` and at least
10 characters of visible text. -/
def is_note_block (b : NoteBlock) : Bool :=
  if "sup".data.isSuffixOf (lowerS b.tag) || "a".data.isSuffixOf (lowerS b.tag)
  then false
  else if lowerS (stripWs (b.role.getD [])) = "doc-footnote".data then true
  else
    let nid := stripWs (b.nid.getD [])
    if !(nid = []) && noteIdPat nid then 10 ≤ b.textLen else false

/-- `re.search(r'(\d+)$', s)`: the maximal digit suffix. -/
def trailingDigits (s : Str) : Str := (s.reverse.takeWhile isDigitC).reverse

def alHas {α : Type} (m : List (Str × α)) (k : Str) : Bool :=
  match m with
  | [] => false
  | (k', _) :: rest => k' = k || alHas rest k

def alGetOpt {α : Type} (m : List (Str × α)) (k : Str) : Option α :=
  match m with
  | [] => none
  | (k', v) :: rest => if k' = k then some v else alGetOpt rest k

/-- Python `dict.setdefault(k, v)` when `v` is only stored if `k` is new. -/
def alSetdefault {α : Type} (m : List (Str × α)) (k : Str) (v : α) :
    List (Str × α) :=
  if alHas m k then m else m ++ [(k, v)]

/-- `numeric_targets` of `ensure_bidirectional_links_per_file`: the first
note block per trailing-digit key, stored as an index (the dict holds element
aliases; updates go through the index). -/
def numericTargetsGo (idx : Nat) (acc : List (Str × Nat)) :
    List NoteBlock → List (Str × Nat)
  | [] => acc
  | b :: rest =>
    let acc := if is_note_block b then
      (let ds := trailingDigits (b.nid.getD [])
       if ds = [] then acc else alSetdefault acc ds idx)
      else acc
    numericTargetsGo (idx + 1) acc rest

def numericTargets (notes : List NoteBlock) : List (Str × Nat) :=
  numericTargetsGo 0 [] notes

/-- Bounded search of `.{0,40}` (no newline) followed by `note` or `n.`. -/
def authTail : Nat → Str → Bool
  | 0, r => "note".data.isPrefixOf r || "n.".data.isPrefixOf r
  | k + 1, r =>
    "note".data.isPrefixOf r || "n.".data.isPrefixOf r ||
    (match r with
     | c :: rest => if c = '\n' then false else authTail k rest
     | [] => false)

/-- `^(Author|Editor).{0,40}(note|n\.)` with `re.I` and `re.match`. -/
def authorNoteRe (txt : Str) : Bool :=
  let l := lowerS txt
  (if "author".data.isPrefixOf l then authTail 40 (l.drop 6) else false) ||
  (if "editor".data.isPrefixOf l then authTail 40 (l.drop 6) else false)

/-- `symbol_targets_in_doc` (lines 316-334) over the candidate paragraphs:
map each symbol key to the first matching paragraph index. -/
def symbolTargetsGo (idx : Nat) (acc : List (Str × Nat)) :
    List Para → List (Str × Nat)
  | [] => acc
  | p :: rest =>
    let txt := stripWs p.text
    let acc :=
      if txt = [] then acc
      else
        let acc := if txt = ['*'] || "* ".data.isPrefixOf txt
          then alSetdefault acc starS idx else acc
        let acc := if txt = ['†'] || "† ".data.isPrefixOf txt
          then alSetdefault acc daggerS idx else acc
        let acc := if txt = ['‡'] || "‡ ".data.isPrefixOf txt
          then alSetdefault acc ddaggerS idx else acc
        let acc := if txt = ['^'] || "^ ".data.isPrefixOf txt
          then alSetdefault acc caretS idx else acc
        if authorNoteRe txt then alSetdefault acc starS idx else acc
    symbolTargetsGo (idx + 1) acc rest

def symbolTargets (paras : List Para) : List (Str × Nat) :=
  symbolTargetsGo 0 [] paras

/-- `SUPERSCRIPT_MAP` applied character-wise. -/
def superMap (c : Char) : Char :=
  if c = '¹' then '1' else if c = '²' then '2' else if c = '³' then '3'
  else if c = '⁰' then '0' else if c = '⁴' then '4' else if c = '⁵' then '5'
  else if c = '⁶' then '6' else if c = '⁷' then '7' else if c = '⁸' then '8'
  else if c = '⁹' then '9' else c

/-- `MIXED_SYM_RE = ^\s*([*†‡^])\s*(\d+)\s*$`. -/
def mixedMatch (s : Str) : Option (Char × Str) :=
  match s.dropWhile isWsC with
  | c :: rest =>
    if c = '*' || c = '†' || c = '‡' || c = '^' then
      let r2 := rest.dropWhile isWsC
      let ds := r2.takeWhile isDigitC
      if !(ds = []) && (r2.dropWhile isDigitC).dropWhile isWsC = [] then
        some (c, ds)
      else none
    else none
  | [] => none

/-- `SYMBOLS.get` on a single symbol character. -/
def symbolName (c : Char) : Option Str :=
  if c = '*' then some starS
  else if c = '†' then some daggerS
  else if c = '‡' then some ddaggerS
  else if c = '^' then some caretS
  else none

/-- The symbol-only fallback: first `SYMBOLS` key (in dict order) whose
character occurs in the raw text. -/
def symbolKeyIn (raw : Str) : Option Str :=
  if raw.contains '*' then some starS
  else if raw.contains '†' then some daggerS
  else if raw.contains '‡' then some ddaggerS
  else if raw.contains '^' then some caretS
  else none

/-- `wrap_with_link` (lines 336-360), on the anchor projection: update the
href of an existing anchor (reporting change only when it differs), or wrap
the content in a fresh anchor. -/
def wrap_with_link (node : RefNode) (tid : Str) : RefNode × Bool :=
  match node.ahref with
  | some h =>
    if h = '#' :: tid then (node, false)
    else ({ node with ahref := some ('#' :: tid) }, true)
  | none => ({ node with ahref := some ('#' :: tid) }, true)

/-- State threaded through the ref loop of
`ensure_bidirectional_links_per_file`. -/
structure P1State where
  notes : List NoteBlock
  paras : List Para
  refs : List RefSlot
  idst : IdState
  changedForward : Nat
  firstIds : Nat
  deriving DecidableEq

/-- One iteration of the ref loop (lines 418-515): try the mixed
symbol+number split, else the numeric path, else the symbol path. -/
def procRef (numTg symTg : List (Str × Nat)) (st : P1State) (i : Nat) :
    P1State :=
  let slot := st.refs.getD i default
  let raw := slot.node.raw
  let norm := raw.map superMap
  let digits := norm.filter isDigitC
  let mixedInfo :=
    match mixedMatch norm with
    | some (symCh, numStr) =>
      match symbolName symCh with
      | some symKey =>
        match alGetOpt symTg symKey, alGetOpt numTg numStr with
        | some symIdx, some numIdx => some (symCh, symKey, symIdx, numStr, numIdx)
        | _, _ => none
      | none => none
    | none => none
  match mixedInfo with
  | some (symCh, symKey, symIdx, numStr, numIdx) =>
    let p := st.paras.getD symIdx default
    let symTid := p.pid.getD (noteDash ++ symKey)
    let paras := if p.pid = none
      then st.paras.set symIdx { p with pid := some symTid } else st.paras
    let b := st.notes.getD numIdx default
    let numTid := b.nid.getD (noteDash ++ numStr)
    let notes := if b.nid = none
      then st.notes.set numIdx { b with nid := some numTid } else st.notes
    let r1 := ensureIdsFor st.idst symKey false none
    let s1 : RefNode := ⟨[symCh], some r1.2.1, some ('#' :: symTid)⟩
    let r2 := ensureIdsFor r1.1 numStr true none
    let s2 : RefNode := ⟨numStr, some r2.2.1, some ('#' :: numTid)⟩
    let fi := (if r1.2.1 = refDash ++ symKey then 1 else 0) +
              (if r2.2.1 = refDash ++ numStr then 1 else 0)
    { notes := notes, paras := paras,
      refs := st.refs.set i { slot with mixedSplit := some (s1, s2) },
      idst := r2.1,
      changedForward := st.changedForward + 2,
      firstIds := st.firstIds + fi }
  | none =>
    match (if digits = [] then none else alGetOpt numTg digits) with
    | some tgtIdx =>
      let b := st.notes.getD tgtIdx default
      let tid := b.nid.getD (noteDash ++ digits)
      let notes := if b.nid = none
        then st.notes.set tgtIdx { b with nid := some tid } else st.notes
      let wr := wrap_with_link slot.node tid
      let r := ensureIdsFor st.idst digits true wr.1.rid
      let node := match r.2.2 with
        | some newId => { wr.1 with rid := some newId }
        | none => wr.1
      { notes := notes, paras := st.paras,
        refs := st.refs.set i { slot with node := node },
        idst := r.1,
        changedForward := st.changedForward + (if wr.2 then 1 else 0),
        firstIds := st.firstIds + (if r.2.1 = refDash ++ digits then 1 else 0) }
    | none =>
      match symbolKeyIn raw with
      | some key =>
        match alGetOpt symTg key with
        | some tgtIdx =>
          let p := st.paras.getD tgtIdx default
          let tid := p.pid.getD (noteDash ++ key)
          let paras := if p.pid = none
            then st.paras.set tgtIdx { p with pid := some tid } else st.paras
          let wr := wrap_with_link slot.node tid
          let r := ensureIdsFor st.idst key false wr.1.rid
          let node := match r.2.2 with
            | some newId => { wr.1 with rid := some newId }
            | none => wr.1
          { notes := st.notes, paras := paras,
            refs := st.refs.set i { slot with node := node },
            idst := r.1,
            changedForward := st.changedForward + (if wr.2 then 1 else 0),
            firstIds := st.firstIds + (if r.2.1 = refDash ++ key then 1 else 0) }
        | none => st
      | none => st

/-- `ensure_bidirectional_links_per_file` (lines 380-517): compute the
numeric and symbolic target dicts, walk the references, and return the
updated document with (forward changes, backlinks = 0 here, first-ids added,
numeric map, symbol map). -/
def ensure_bidirectional_links_per_file (doc : Doc) :
    Doc × Nat × Nat × Nat × List (Str × List Str) × List (Str × List Str) :=
  let numTg := numericTargets doc.notes
  let symTg := symbolTargets doc.paras
  let init : P1State := ⟨doc.notes, doc.paras, doc.refs, IdState.empty, 0, 0⟩
  let fin := (List.range doc.refs.length).foldl (procRef numTg symTg) init
  ({ doc with notes := fin.notes, paras := fin.paras, refs := fin.refs },
   fin.changedForward, 0, fin.firstIds, fin.idst.num.ids, fin.idst.sym.ids)

/-- `ensure_note_roles` (lines 303-313): give every detected note block
`role='doc-footnote'`; returns the number updated. -/
def ensure_note_roles (notes : List NoteBlock) : List NoteBlock × Nat :=
  (notes.map (fun b =>
    if is_note_block b &&
        !(lowerS (stripWs (b.role.getD [])) = "doc-footnote".data) then
      { b with role := some "doc-footnote".data }
    else b),
   (notes.filter (fun b =>
    is_note_block b &&
      !(lowerS (stripWs (b.role.getD [])) = "doc-footnote".data))).length)

/-- The per-book metric counters (the `metrics` dict of
`process_single_epub`). -/
structure Metrics where
  linebreak_files_changed : Nat
  forward_links_fixed : Nat
  backlinks_added : Nat
  first_ref_ids_added : Nat
  soft_hyphens_removed : Nat
  empties_collapsed : Nat
  blacklist_removed : Nat
  banners_removed : Nat
  banners_kept_first : Nat
  illegitimate_paragraphs_merged : Nat
  deriving DecidableEq

def Metrics.zero : Metrics := ⟨0, 0, 0, 0, 0, 0, 0, 0, 0, 0⟩

/-- Result of processing one spine item. -/
structure XhtmlResult where
  doc : Doc
  written : Bool
  numMap : List (Str × List Str)
  symMap : List (Str × List Str)
  metrics : Metrics
  deriving DecidableEq

/-- `strip_soft_hyphens` applied to the (document, metrics, changed)
state. -/
def fixSoftHyphens (x : Doc × Metrics × Bool) : Doc × Metrics × Bool :=
  if x.1.softHyphens then
    ({ x.1 with softHyphens := false },
     { x.2.1 with soft_hyphens_removed := x.2.1.soft_hyphens_removed + 1 },
     true)
  else x

/-- `fix_linebreaks_and_dehyphenation` applied to the state. -/
def fixLinebreaks (x : Doc × Metrics × Bool) : Doc × Metrics × Bool :=
  if x.1.lineWrapFixes then
    ({ x.1 with lineWrapFixes := false },
     { x.2.1 with linebreak_files_changed :=
        x.2.1.linebreak_files_changed + 1 }, true)
  else x

/-- `fix_illegitimate_paragraph_breaks` applied to the state. -/
def fixIllegit (x : Doc × Metrics × Bool) : Doc × Metrics × Bool :=
  if 0 < x.1.illegitBreaks then
    ({ x.1 with illegitBreaks := 0 },
     { x.2.1 with illegitimate_paragraphs_merged :=
        x.2.1.illegitimate_paragraphs_merged + x.1.illegitBreaks }, true)
  else x

/-- `collapse_empty_paragraphs` applied to the state. -/
def fixEmpties (x : Doc × Metrics × Bool) : Doc × Metrics × Bool :=
  if x.1.emptyParaPairs then
    ({ x.1 with emptyParaPairs := false },
     { x.2.1 with empties_collapsed := x.2.1.empties_collapsed + 1 }, true)
  else x

/-- `apply_blacklist_shortlines` applied to the state (a no-op without
patterns). -/
def fixBlacklist (hasBlacklist : Bool) (x : Doc × Metrics × Bool) :
    Doc × Metrics × Bool :=
  if hasBlacklist && 0 < x.1.blacklistHits then
    ({ x.1 with blacklistHits := 0 },
     { x.2.1 with blacklist_removed :=
        x.2.1.blacklist_removed + x.1.blacklistHits }, true)
  else x

/-- `process_single_xhtml` (epubstandard.py lines 1073-1146) on a document
that parses (a parse failure returns empty maps and writes nothing and is not
modelled here).  The charset step runs first and the `changed` flag is set
unconditionally right after it; with `skip_content_edits` every content fix
and the linking pass are skipped and the maps stay empty; the file is written
back iff `changed and not cfg.dry_run`. -/
def process_single_xhtml (doc : Doc) (_isXhtml : Bool) (cfg : Config)
    (m : Metrics) (skipContentEdits : Bool) (hasBlacklist : Bool) :
    XhtmlResult :=
  let doc := { doc with hasCharset := true }
  let changed := true
  if skipContentEdits then
    { doc := doc, written := changed && !cfg.dry_run,
      numMap := [], symMap := [], metrics := m }
  else
    let s4 := fixEmpties (fixIllegit (fixLinebreaks (fixSoftHyphens
      (doc, m, changed))))
    let link := ensure_bidirectional_links_per_file s4.1
    let fw := link.2.1
    let firstIds := link.2.2.2.1
    let m5 := { s4.2.1 with forward_links_fixed :=
      s4.2.1.forward_links_fixed + fw }
    let m5 := { m5 with first_ref_ids_added :=
      m5.first_ref_ids_added + firstIds }
    let c5 := s4.2.2 || !(fw = 0) || !(firstIds = 0)
    let roles := ensure_note_roles link.1.notes
    let doc6 := { link.1 with notes := roles.1 }
    let c6 := c5 || !(roles.2 = 0)
    let s7 := fixBlacklist hasBlacklist (doc6, m5, c6)
    { doc := s7.1, written := s7.2.2 && !cfg.dry_run,
      numMap := link.2.2.2.2.1, symMap := link.2.2.2.2.2, metrics := s7.2.1 }

/-- An EPUB archive, projected to what the pipeline reads and writes: the
package descriptor (if any), the spine documents (paired with their
`is_xhtml` flag), and the cleanup manifest record. -/
structure Archive where
  opf : Option OpfTree
  docs : List (Doc × Bool)
  cleanupRecord : Option Str
  deriving DecidableEq

/-- The outcome of `process_single_epub`: the status/note pair of the report
row, the metric columns of the row, and the repacked archive (`none` exactly
when no output file is produced and the source archive is untouched). -/
structure RunResult where
  status : Str
  note : Str
  metricsRow : List Nat
  output : Option Archive
  deriving DecidableEq

/-- `dict.setdefault(k, []).append(v)`. -/
def alAppend {α : Type} (m : List (Str × List α)) (k : Str) (v : α) :
    List (Str × List α) :=
  if alHas m k then
    m.map (fun p => if p.1 = k then (p.1, p.2 ++ [v]) else p)
  else m ++ [(k, [v])]

/-- Accumulator of pass 1: processed documents (as re-read from disk for
the target collection), the two ref-location dicts keyed by number / symbol
with `(path, ref_id)` values, the collected note ids, and the metrics. -/
structure Pass1Out where
  docs : List (Doc × Bool)
  numLoc : List (Str × List (Str × Str))
  symLoc : List (Str × List (Str × Str))
  noteIds : List (Str × Str × Bool)
  metrics : Metrics
  deriving DecidableEq

/-- One spine item of pass 1 (lines 1516-1559): process it (skipping content
edits when the file name starts with `nav`), merge its ref maps into the
location dicts, then re-read the written file (or keep the original if
nothing was written) and collect its note-block ids.  Paths are flat file
names in this model, so `os.path.basename` is the identity. -/
def pass1Step (cfg : Config) (hasBlacklist : Bool) (acc : Pass1Out)
    (db : Doc × Bool) : Pass1Out :=
  let skipEdits := "nav".data.isPrefixOf (lowerS db.1.path)
  let res := process_single_xhtml db.1 db.2 cfg acc.metrics skipEdits
    hasBlacklist
  let numLoc := res.numMap.foldl (fun nl p =>
    p.2.foldl (fun nl rid => alAppend nl p.1 (db.1.path, rid)) nl) acc.numLoc
  let symLoc := res.symMap.foldl (fun sl p =>
    p.2.foldl (fun sl rid => alAppend sl p.1 (db.1.path, rid)) sl) acc.symLoc
  let diskDoc := if res.written then res.doc else db.1
  let newIds := (diskDoc.notes.filter is_note_block).filterMap (fun b =>
    match b.nid with
    | some nid => if nid = [] then none else some (db.1.path, nid, db.2)
    | none => none)
  { docs := acc.docs ++ [(diskDoc, db.2)],
    numLoc := numLoc, symLoc := symLoc,
    noteIds := acc.noteIds ++ newIds,
    metrics := res.metrics }

def pass1 (cfg : Config) (hasBlacklist : Bool) (docs : List (Doc × Bool)) :
    Pass1Out :=
  docs.foldl (pass1Step cfg hasBlacklist) ⟨[], [], [], [], Metrics.zero⟩

/-- `pick_nearest` (lines 1593-1599): prefer the last ref in the same file,
else the first anywhere; `None` on an empty list. -/
def pick_nearest (refList : List (Str × Str)) (cur : Str) :
    Option (Str × Str) :=
  if refList = [] then none
  else
    match (refList.filter (fun pr => pr.1 = cur)).getLast? with
    | some x => some x
    | none => refList.head?

/-- `rel_href` (lines 856-861) in this flat single-directory model:
`os.path.relpath(to_path, dirname(from_path))` is the bare file name, which
is never `'.'`, so the fragment-only branch is dead and the result is always
`file#id`. -/
def rel_href (_fromP toP : Str) (tid : Str) : Str :=
  let rel := toP
  if rel = ['.'] then '#' :: tid else rel ++ '#' :: tid

/-- The symbol-key scan of pass 2 (lines 1613-1620): first key in order
star, dagger, double-dagger, caret occurring as a substring of the note id
(so `dagger` also fires on `double-dagger` ids, as in the source). -/
def symKeyOfNoteId (nid : Str) : Option Str :=
  if strContains starS nid then some starS
  else if strContains daggerS nid then some daggerS
  else if strContains ddaggerS nid then some ddaggerS
  else if strContains caretS nid then some caretS
  else none

/-- One backlink insertion of pass 2 (lines 1602-1646): locate the note by
path and id, pick the nearest ref location, and replace any previous
backlink anchors with one fresh `(href, ref_id)` anchor. -/
def pass2Step (numLoc symLoc : List (Str × List (Str × Str)))
    (st : List (Doc × Bool) × Metrics) (entry : Str × Str × Bool) :
    List (Doc × Bool) × Metrics :=
  let (docs, m) := st
  let (pth, nid, _isX) := entry
  match docs.findIdx? (fun db => db.1.path = pth) with
  | none => (docs, m)
  | some di =>
    let db := docs.getD di (defaultDoc, true)
    match db.1.notes.findIdx? (fun b => b.nid = some nid) with
    | none => (docs, m)
    | some ni =>
      let dt := trailingDigits nid
      let cand :=
        if !(dt = []) then pick_nearest (alGet numLoc dt []) pth
        else
          match symKeyOfNoteId nid with
          | some key => pick_nearest (alGet symLoc key []) pth
          | none => none
      match cand with
      | none => (docs, m)
      | some (refPath, refId) =>
        let href := rel_href pth refPath refId
        let b := db.1.notes.getD ni default
        let notes := db.1.notes.set ni { b with backlinks := [(href, refId)] }
        let doc := { db.1 with notes := notes }
        (docs.set di (doc, db.2),
         { m with backlinks_added := m.backlinks_added + 1 })

def pass2 (numLoc symLoc : List (Str × List (Str × Str)))
    (noteIds : List (Str × Str × Bool)) (docs : List (Doc × Bool))
    (m : Metrics) : List (Doc × Bool) × Metrics :=
  noteIds.foldl (pass2Step numLoc symLoc) (docs, m)

/-- The cover stage (lines 1583-1590 and `ensure_cover_image`): on archives
without image resources — the only kind this model carries — `find_cover`
returns nothing and the stage changes neither the descriptor nor the
documents. -/
def coverStage (opf : OpfTree) (docs : List (Doc × Bool)) :
    OpfTree × List (Doc × Bool) :=
  (opf, docs)

/-- The nine metric columns of a `done` report row (lines 1655-1660); the
early `fail`/`skip` rows emit only eight zero columns, as in the source. -/
def metricsRowOf (m : Metrics) : List Nat :=
  [m.linebreak_files_changed, m.forward_links_fixed, m.backlinks_added,
   m.first_ref_ids_added, m.soft_hyphens_removed, m.empties_collapsed,
   m.blacklist_removed, m.banners_removed,
   m.illegitimate_paragraphs_merged]

/-- The stages of `process_single_epub` after pass 1 (lines 1580-1663): the
banner pass, pass 2 (suppressed on `--dry-run`), the cover stage, and — only
when not a dry run — the marker stamp, the cleanup-manifest record, and the
repacked output archive. -/
def epubCont (cfg : Config) (cfgHash : Str) (opfTree : OpfTree)
    (p1 : Pass1Out) : RunResult :=
  let ban := remove_repeated_banners p1.docs cfg.banner cfg.dry_run
  let m2 := { p1.metrics with banners_removed := ban.2.1 }
  let m2 := { m2 with banners_kept_first := ban.2.2 }
  let docs2 := ban.1
  let dm :=
    if cfg.dry_run then (docs2, m2)
    else pass2 p1.numLoc p1.symLoc p1.noteIds docs2 m2
  let cov := coverStage opfTree dm.1
  let status := if cfg.inplace then "ok-inplace".data else "ok".data
  if cfg.dry_run then
    { status := status, note := "done".data,
      metricsRow := metricsRowOf dm.2, output := none }
  else
    let out : Archive :=
      ⟨some (mark_idempotent cov.1 cfgHash), cov.2, some cfgHash⟩
    { status := status, note := "done".data,
      metricsRow := metricsRowOf dm.2, output := some out }

/-- `process_single_epub` (lines 1425-1663) over an unpacked archive, with
the SHA-256 digest abstracted as `hashFn`: fail fast without a descriptor,
skip when the marker matches and `--force` is absent, else run pass 1
followed by the later stages (`epubCont`). -/
def process_single_epub (cfg : Config) (hashFn : Str → Str)
    (hasBlacklist : Bool) (arch : Archive) : RunResult :=
  match arch.opf with
  | none =>
    { status := "fail".data, note := "no opf".data,
      metricsRow := List.replicate 8 0, output := none }
  | some opfTree =>
    let cfgHash := configHashWith hashFn cfg
    if !cfg.force && already_processed opfTree cfgHash then
      { status := "skip".data, note := "already processed (same config)".data,
        metricsRow := List.replicate 8 0, output := none }
    else
      epubCont cfg cfgHash opfTree (pass1 cfg hasBlacklist arch.docs)

/-- A document needing none of the content fixes: charset present, no
fix projection set, no refs or notes. -/
def cleanDoc : Doc :=
  { defaultDoc with path := "ch1.xhtml".data, hasCharset := true }

/-- An unpacked archive without a package descriptor. -/
def noOpfArch : Archive := ⟨none, [], none⟩

/-- Scenario A of the specification: `chapter1.xhtml` holding one numeric
in-text reference `1` (no id, no anchor) and one note block
`<p id="fn1">` with `L` characters of text. -/
def scenarioANote (L : Nat) : NoteBlock := ⟨['p'], some "fn1".data, none, L, []⟩

def scenarioADoc (L : Nat) : Doc :=
  { defaultDoc with
    path := "chapter1.xhtml".data
    hasCharset := true
    refs := [⟨⟨['1'], none, none⟩, none⟩]
    notes := [scenarioANote L] }

def scenarioAArch (L : Nat) : Archive :=
  ⟨some ⟨[]⟩, [(scenarioADoc L, true)], none⟩

/-- The expected scenario-A output document: the reference wrapped in a
forward link to `#fn1` with id `ref-1`; the note exposed as `doc-footnote`
carrying exactly one backlink anchor, whose href is `chapter1.xhtml#ref-1`. -/
def scenarioAOutDoc (L : Nat) : Doc :=
  { defaultDoc with
    path := "chapter1.xhtml".data
    hasCharset := true
    refs := [⟨⟨['1'], some "ref-1".data, some "#fn1".data⟩, none⟩]
    notes := [⟨['p'], some "fn1".data, some "doc-footnote".data, L,
      [("chapter1.xhtml#ref-1".data, "ref-1".data)]⟩] }

/-- The expected scenario-A output archive. -/
def scenarioAOut (hashFn : Str → Str) (L : Nat) : Archive :=
  ⟨some (mark_idempotent ⟨[]⟩ (configHashWith hashFn cfgA)),
   [(scenarioAOutDoc L, true)],
   some (configHashWith hashFn cfgA)⟩

/-- The metrics after scenario A's pass 1: one forward link fixed, one
first-occurrence ref id added. -/
def scenarioAMetrics : Metrics := ⟨0, 1, 0, 1, 0, 0, 0, 0, 0, 0⟩

/-- A three-document spine sharing one qualifying banner snippet, whose
second document is a `nav.xhtml`. -/
def navArch : Archive :=
  ⟨some ⟨[]⟩,
   [(mkBannerDoc "a.xhtml" harvardTop none, true),
    (mkBannerDoc "nav.xhtml" harvardTop none, true),
    (mkBannerDoc "b.xhtml" harvardTop none, true)],
   none⟩

/-- The per-key sequence counter the pass would use next for an event. -/
def seqCnt (st : IdState) (e : Str × Bool) : Nat :=
  if e.2 then alGet st.num.seq e.1 0 else alGet st.sym.seq e.1 0

/-- Spec-side description of the trace of ids a run of no-pre-existing-id
`ensure_ids_for` calls produces: the i-th event gets `ref-<key>` decorated
with the running per-key occurrence number. -/
def specTrace (st : IdState) (evs : List (Str × Bool)) : List Str :=
  (List.range evs.length).map fun i =>
    specRefId (evs.getD i ([], true)).1
      (seqCnt st (evs.getD i ([], true)) + (evs.take i).count (evs.getD i ([], true)) + 1)

instance : DecidablePred validEv := by
  intro e
  obtain ⟨k, b⟩ := e
  cases b <;> simp only [validEv] <;> infer_instance

theorem natRepr_lt10 (n : Nat) (h : n < 10) : natRepr n = [digitChar n] := by
  conv_lhs => rw [natRepr]
  rw [dif_pos h]

theorem natRepr_ge10 (n : Nat) (h : ¬ n < 10) :
    natRepr n = natRepr (n / 10) ++ [digitChar (n % 10)] := by
  conv_lhs => rw [natRepr]
  rw [dif_neg h]

theorem natRepr_ne_nil (n : Nat) : natRepr n ≠ [] := by
  by_cases h : n < 10
  · rw [natRepr_lt10 n h]; simp
  · rw [natRepr_ge10 n h]; simp

theorem digitChar_isDigit (d : Nat) (h : d < 10) : isDigitC (digitChar d) = true := by
  interval_cases d <;> decide

theorem digitChar_inj (a b : Nat) (ha : a < 10) (hb : b < 10)
    (h : digitChar a = digitChar b) : a = b := by
  interval_cases a <;> interval_cases b <;> simp_all [digitChar]

theorem natRepr_all_digits (n : Nat) : ∀ c ∈ natRepr n, isDigitC c = true := by
  induction n using Nat.strong_induction_on with
  | _ n ih =>
    by_cases h : n < 10
    · rw [natRepr_lt10 n h]
      intro c hc
      simp only [List.mem_singleton] at hc
      subst hc
      exact digitChar_isDigit n (by omega)
    · rw [natRepr_ge10 n h]
      intro c hc
      rw [List.mem_append] at hc
      rcases hc with hc | hc
      · exact ih (n / 10) (Nat.div_lt_self (by omega) (by omega)) c hc
      · simp only [List.mem_singleton] at hc
        subst hc
        exact digitChar_isDigit (n % 10) (Nat.mod_lt _ (by omega))

theorem natRepr_inj (m : Nat) : ∀ n, natRepr m = natRepr n → m = n := by
  induction m using Nat.strong_induction_on with
  | _ m ih =>
    intro n h
    by_cases hm : m < 10 <;> by_cases hn : n < 10
    · rw [natRepr_lt10 m hm, natRepr_lt10 n hn] at h
      exact digitChar_inj m n hm hn (by simpa using h)
    · rw [natRepr_lt10 m hm, natRepr_ge10 n hn] at h
      have hl := congrArg List.length h
      have hnn := natRepr_ne_nil (n / 10)
      simp only [List.length_singleton, List.length_append] at hl
      cases hq : natRepr (n / 10) with
      | nil => exact absurd hq hnn
      | cons a l => rw [hq] at hl; simp at hl
    · rw [natRepr_ge10 m hm, natRepr_lt10 n hn] at h
      have hl := congrArg List.length h
      have hmm := natRepr_ne_nil (m / 10)
      simp only [List.length_singleton, List.length_append] at hl
      cases hq : natRepr (m / 10) with
      | nil => exact absurd hq hmm
      | cons a l => rw [hq] at hl; simp at hl
    · rw [natRepr_ge10 m hm, natRepr_ge10 n hn] at h
      have h2 := congrArg List.reverse h
      simp only [List.reverse_append, List.reverse_singleton, List.singleton_append] at h2
      have hhead : digitChar (m % 10) = digitChar (n % 10) := (List.cons.injEq _ _ _ _ ▸ h2).1
      have htail : (natRepr (m / 10)).reverse = (natRepr (n / 10)).reverse :=
        (List.cons.injEq _ _ _ _ ▸ h2).2
      have hmod : m % 10 = n % 10 :=
        digitChar_inj _ _ (Nat.mod_lt _ (by omega)) (Nat.mod_lt _ (by omega)) hhead
      have hdiv : m / 10 = n / 10 :=
        ih (m / 10) (Nat.div_lt_self (by omega) (by omega)) (n / 10)
          (List.reverse_injective htail)
      omega

theorem alGet_alSet {α : Type} (m : List (Str × α)) (k k' : Str) (v : α) (d : α) :
    alGet (alSet m k v) k' d = if k = k' then v else alGet m k' d := by
  induction m with
  | nil => simp only [alSet, alGet]
  | cons p rest ih =>
    obtain ⟨pk, pv⟩ := p
    by_cases hpk : pk = k
    · simp only [alSet, if_pos hpk, alGet, hpk]
      by_cases hkk : k = k' <;> simp [hkk]
    · simp only [alSet, if_neg hpk, alGet, ih]
      by_cases hpk' : pk = k'
      · have hkk : ¬ k = k' := by
          intro h
          exact hpk (h ▸ hpk')
        simp [hpk', hkk]
      · simp [hpk']

/-- Splitting a digit run followed by nothing or a hyphen-led tail is
unambiguous: the digit run and the tail are both determined. -/
theorem digit_split : ∀ (d1 d2 t1 t2 : Str),
    d1 ≠ [] → (∀ c ∈ d1, isDigitC c = true) →
    d2 ≠ [] → (∀ c ∈ d2, isDigitC c = true) →
    (t1 = [] ∨ ∃ r, t1 = '-' :: r) → (t2 = [] ∨ ∃ r, t2 = '-' :: r) →
    d1 ++ t1 = d2 ++ t2 → d1 = d2 ∧ t1 = t2 := by
  intro d1
  induction d1 with
  | nil => intro d2 t1 t2 h1; exact absurd rfl h1
  | cons c cs ih =>
    intro d2 t1 t2 _ ha1 h2 ha2 ht1 ht2 heq
    cases d2 with
    | nil => exact absurd rfl h2
    | cons c2 cs2 =>
      simp only [List.cons_append, List.cons.injEq] at heq
      obtain ⟨hc, hrest⟩ := heq
      subst hc
      cases cs with
      | nil =>
        cases cs2 with
        | nil =>
          simp only [List.nil_append] at hrest
          exact ⟨rfl, hrest⟩
        | cons x xs =>
          exfalso
          simp only [List.nil_append, List.cons_append] at hrest
          have hx : isDigitC x = true := ha2 x (by simp)
          rcases ht1 with h | ⟨r, h⟩
          · rw [h] at hrest; exact absurd hrest.symm (by simp)
          · rw [h] at hrest
            have : x = '-' := (List.cons.injEq _ _ _ _ ▸ hrest).1.symm
            rw [this] at hx
            simp [isDigitC] at hx
      | cons y ys =>
        cases cs2 with
        | nil =>
          exfalso
          simp only [List.nil_append, List.cons_append] at hrest
          have hy : isDigitC y = true := ha1 y (by simp)
          rcases ht2 with h | ⟨r, h⟩
          · rw [h] at hrest; exact absurd hrest (by simp)
          · rw [h] at hrest
            have : y = '-' := (List.cons.injEq _ _ _ _ ▸ hrest).1
            rw [this] at hy
            simp [isDigitC] at hy
        | cons x xs =>
          have hih := ih (x :: xs) t1 t2 (by simp)
            (fun a ha => ha1 a (by simp [ha]))
            (by simp)
            (fun a ha => ha2 a (by simp [ha]))
            ht1 ht2 hrest
          exact ⟨by rw [hih.1], hih.2⟩

/-- No symbol name is a digit string. -/
theorem symName_not_digits (s : Str) (hs : s ∈ symNames)
    (hd : ∀ c ∈ s, isDigitC c = true) : False := by
  simp only [symNames, List.mem_cons, List.not_mem_nil, or_false] at hs
  rcases hs with rfl | rfl | rfl | rfl
  · have := hd 's' (by simp [starS]); simp [isDigitC] at this
  · have := hd 'd' (by simp [daggerS]); simp [isDigitC] at this
  · have := hd 'd' (by simp [ddaggerS]); simp [isDigitC] at this
  · have := hd 'c' (by simp [caretS]); simp [isDigitC] at this

/-- Splitting a symbol name followed by nothing or a hyphen-led numeric tail
is unambiguous across the four symbol names. -/
theorem sym_split (s1 s2 : Str) (hs1 : s1 ∈ symNames) (hs2 : s2 ∈ symNames)
    (t1 t2 : Str) (heq : s1 ++ t1 = s2 ++ t2) : s1 = s2 ∧ t1 = t2 := by
  simp only [symNames, List.mem_cons, List.mem_singleton, List.not_mem_nil, or_false] at hs1 hs2
  rcases hs1 with rfl | rfl | rfl | rfl <;> rcases hs2 with rfl | rfl | rfl | rfl <;>
    simp only [starS, daggerS, ddaggerS, caretS, List.cons_append, List.cons.injEq,
      List.append_cancel_left_eq] at heq ⊢ <;> simp_all

/-- A digit-run body can never coincide with a symbol-name body. -/
theorem num_sym_body_ne (k s t1 t2 : Str) (hk : k ≠ [])
    (hd : ∀ c ∈ k, isDigitC c = true) (hs : s ∈ symNames) :
    k ++ t1 ≠ s ++ t2 := by
  intro heq
  cases k with
  | nil => exact hk rfl
  | cons c cs =>
    have hc : isDigitC c = true := hd c (by simp)
    simp only [symNames, List.mem_cons, List.not_mem_nil, or_false] at hs
    rcases hs with rfl | rfl | rfl | rfl
    · simp only [starS, List.cons_append, List.cons.injEq] at heq
      rw [heq.1] at hc; simp [isDigitC] at hc
    · simp only [daggerS, List.cons_append, List.cons.injEq] at heq
      rw [heq.1] at hc; simp [isDigitC] at hc
    · simp only [ddaggerS, List.cons_append, List.cons.injEq] at heq
      rw [heq.1] at hc; simp [isDigitC] at hc
    · simp only [caretS, List.cons_append, List.cons.injEq] at heq
      rw [heq.1] at hc; simp [isDigitC] at hc

theorem specRefId_eq (k : Str) (n : Nat) :
    specRefId k n = refDash ++ (if n = 1 then k else k ++ '-' :: natRepr n) := by
  by_cases h : n = 1 <;> simp [specRefId, h]

/-- The tail attached after the key (`nothing` or `-<n>`) determines n. -/
theorem specTail_inj (n1 n2 : Nat)
    (h : (if n1 = 1 then ([] : Str) else '-' :: natRepr n1) =
         (if n2 = 1 then ([] : Str) else '-' :: natRepr n2)) : n1 = n2 := by
  by_cases h1 : n1 = 1 <;> by_cases h2 : n2 = 1
  · omega
  · rw [if_pos h1, if_neg h2] at h; exact absurd h (by simp)
  · rw [if_neg h1, if_pos h2] at h; exact absurd h (by simp)
  · rw [if_neg h1, if_neg h2] at h
    have := (List.cons.injEq _ _ _ _ ▸ h).2
    exact natRepr_inj n1 n2 this

/-- The id scheme is injective over valid keys and positive sequence
numbers: distinct (key, category, n) always yield distinct id strings. -/
theorem specRefId_inj (e1 e2 : Str × Bool) (n1 n2 : Nat)
    (h1 : validEv e1) (h2 : validEv e2)
    (h : specRefId e1.1 n1 = specRefId e2.1 n2) : e1 = e2 ∧ n1 = n2 := by
  rw [specRefId_eq, specRefId_eq] at h
  have hbody := List.append_cancel_left h
  obtain ⟨k1, b1⟩ := e1
  obtain ⟨k2, b2⟩ := e2
  have tailShape : ∀ n : Nat,
      (if n = 1 then ([] : Str) else '-' :: natRepr n) = [] ∨
      ∃ r, (if n = 1 then ([] : Str) else '-' :: natRepr n) = '-' :: r := by
    intro n
    by_cases hn : n = 1
    · left; simp [hn]
    · right; exact ⟨natRepr n, by simp [hn]⟩
  have bodyEq : k1 ++ (if n1 = 1 then ([] : Str) else '-' :: natRepr n1) =
      k2 ++ (if n2 = 1 then ([] : Str) else '-' :: natRepr n2) := by
    by_cases ha : n1 = 1 <;> by_cases hb : n2 = 1 <;>
      simpa [ha, hb] using hbody
  cases b1 <;> cases b2 <;> simp only [validEv] at h1 h2
  · -- both symbolic
    have hs := sym_split k1 k2 h1 h2 _ _ bodyEq
    exact ⟨by simp [hs.1], specTail_inj n1 n2 hs.2⟩
  · -- e1 symbolic, e2 numeric
    exact absurd bodyEq.symm (num_sym_body_ne k2 k1 _ _ h2.1 h2.2 h1)
  · -- e1 numeric, e2 symbolic
    exact absurd bodyEq (num_sym_body_ne k1 k2 _ _ h1.1 h1.2 h2)
  · -- both numeric
    have hsplit := digit_split k1 k2 _ _ h1.1 h1.2 h2.1 h2.2
      (tailShape n1) (tailShape n2) bodyEq
    exact ⟨by simp [hsplit.1], specTail_inj n1 n2 hsplit.2⟩

theorem takeWhile_append_all {p : Char → Bool} (l1 l2 : Str)
    (h1 : ∀ c ∈ l1, p c = true)
    (h2 : ∀ c r, l2 = c :: r → p c = false) :
    (l1 ++ l2).takeWhile p = l1 ∧ (l1 ++ l2).dropWhile p = l2 := by
  induction l1 with
  | nil =>
    cases l2 with
    | nil => simp
    | cons c r =>
      simp [List.takeWhile_cons, List.dropWhile_cons, h2 c r rfl]
  | cons a l ih =>
    have ha : p a = true := h1 a (by simp)
    have := ih (fun c hc => h1 c (by simp [hc]))
    simp [List.takeWhile_cons, List.dropWhile_cons, ha, this.1, this.2]

theorem takeWhile_all {p : Char → Bool} (l : Str) (h : ∀ c ∈ l, p c = true) :
    l.takeWhile p = l ∧ l.dropWhile p = [] := by
  have := takeWhile_append_all l [] h (fun c r hcr => by simp at hcr)
  simpa using this

theorem ws_not_word (c : Char) (h : isWsC c = true) : isWordC c = false := by
  by_cases e1 : c = ' '
  · subst e1; decide
  by_cases e2 : c = '\t'
  · subst e2; decide
  by_cases e3 : c = '\n'
  · subst e3; decide
  by_cases e4 : c = '\r'
  · subst e4; decide
  by_cases e5 : c = '\x0b'
  · subst e5; decide
  by_cases e6 : c = '\x0c'
  · subst e6; decide
  simp [isWsC, e1, e2, e3, e4, e5, e6] at h

theorem word_not_ws (c : Char) (h : isWordC c = true) : isWsC c = false := by
  cases hB : isWsC c
  · rfl
  · rw [ws_not_word c hB] at h
    exact absurd h (by simp)

theorem word_not_nl (c : Char) (h : isWordC c = true) : c ≠ '\n' := by
  intro heq
  subst heq
  simp [isWordC, isDigitC] at h

theorem not_shy_of_word (c : Char) (h : isWordC c = true) : c ≠ softHyphen := by
  intro heq
  subst heq
  simp [isWordC, isDigitC, softHyphen] at h

theorem not_shy_of_ws (c : Char) (h : isWsC c = true) : c ≠ softHyphen := by
  intro heq
  subst heq
  simp [isWsC, softHyphen] at h

theorem dehyphGo_nil (f : Nat) : dehyphGo f [] = [] := by
  cases f <;> rfl

theorem joinGo_nil (f : Nat) : joinGo f [] = [] := by
  cases f <;> rfl

theorem matchJoin_none_of_no_nl (s : Str) (h : '\n' ∉ s) : matchJoin s = none := by
  unfold matchJoin
  by_cases h1 : s.takeWhile isWordC = []
  · simp [h1]
  · have hnm : ¬ '\n' ∈ (s.dropWhile isWordC).takeWhile isWsC := by
      intro hm
      exact h ((s.dropWhile_sublist isWordC).mem
        ((s.dropWhile isWordC).takeWhile_sublist isWsC |>.mem hm))
    simp [h1, hnm]

theorem joinGo_no_nl (f : Nat) : ∀ s : Str, '\n' ∉ s → joinGo f s = s := by
  induction f with
  | zero => intro s _; rfl
  | succ f ih =>
    intro s hs
    cases s with
    | nil => rfl
    | cons c rest =>
      show (match matchJoin (c :: rest) with
        | some (w1, w2, rem) => (w1 ++ ' ' :: w2) ++ joinGo f rem
        | none => c :: joinGo f rest) = c :: rest
      rw [matchJoin_none_of_no_nl _ hs]
      rw [ih rest (fun hm => hs (by simp [hm]))]

theorem joinSub_no_nl (s : Str) (h : '\n' ∉ s) : joinSub s = s :=
  joinGo_no_nl s.length s h

theorem matchDehyph_exact (w1 ws w2 : Str)
    (h1 : w1 ≠ []) (hw1 : ∀ c ∈ w1, isWordC c = true)
    (h2 : w2 ≠ []) (hw2 : ∀ c ∈ w2, isWordC c = true)
    (hws : ∀ c ∈ ws, isWsC c = true) (hnl : '\n' ∈ ws) :
    matchDehyph (w1 ++ ('-' :: (ws ++ w2))) = some (w1, w2, []) := by
  have split1 := takeWhile_append_all w1 ('-' :: (ws ++ w2)) hw1
    (by intro c r hcr; cases hcr; decide)
  have hwshape : ∀ c r, w2 = c :: r → isWsC c = false := by
    intro c r hcr
    exact word_not_ws c (hw2 c (by simp [hcr]))
  have split2 := takeWhile_append_all ws w2 hws hwshape
  have split3 := takeWhile_all w2 hw2
  unfold matchDehyph
  rw [split1.1, split1.2]
  simp only [if_neg h1]
  rw [split2.1, split2.2, split3.1, split3.2]
  simp [hnl, h2]

theorem dehyphSub_exact (w1 ws w2 : Str)
    (h1 : w1 ≠ []) (hw1 : ∀ c ∈ w1, isWordC c = true)
    (h2 : w2 ≠ []) (hw2 : ∀ c ∈ w2, isWordC c = true)
    (hws : ∀ c ∈ ws, isWsC c = true) (hnl : '\n' ∈ ws) :
    dehyphSub (w1 ++ ('-' :: (ws ++ w2))) = dehyphRepl w1 w2 := by
  obtain ⟨a, w1t, rfl⟩ : ∃ a w1t, w1 = a :: w1t := by
    cases w1 with
    | nil => exact absurd rfl h1
    | cons a t => exact ⟨a, t, rfl⟩
  unfold dehyphSub
  rw [List.cons_append, List.length_cons]
  show (match matchDehyph (a :: (w1t ++ ('-' :: (ws ++ w2)))) with
    | some (g1, g2, rem) =>
        dehyphRepl g1 g2 ++ dehyphGo (w1t ++ ('-' :: (ws ++ w2))).length rem
    | none => a :: dehyphGo (w1t ++ ('-' :: (ws ++ w2))).length
        (w1t ++ ('-' :: (ws ++ w2)))) = _
  rw [← List.cons_append, matchDehyph_exact _ _ _ h1 hw1 h2 hw2 hws hnl]
  simp only [dehyphGo_nil, List.append_nil]

/-- C7 (amended): a hyphen-terminated word fragment followed by a line break
and a word fragment is joined exactly when the joined lowercase form is not on
the compound allow-list — the case of the following fragment plays no role;
allow-listed compounds keep their hyphen, losing only the line break. -/
theorem C7_dehyphenation (w1 w2 ws : Str)
    (h1 : w1 ≠ []) (hw1 : ∀ c ∈ w1, isWordC c = true)
    (h2 : w2 ≠ []) (hw2 : ∀ c ∈ w2, isWordC c = true)
    (hws : ∀ c ∈ ws, isWsC c = true) (hnl : '\n' ∈ ws) :
    fixText (w1 ++ ('-' :: (ws ++ w2))) =
      (if lowerS (w1 ++ '-' :: w2) ∈ COMMON_COMPOUND_KEEP
       then w1 ++ '-' :: w2 else w1 ++ w2) := by
  have hne : w1 ++ ('-' :: (ws ++ w2)) ≠ [] := by
    cases w1 with
    | nil => exact absurd rfl h1
    | cons a t => simp
  unfold fixText
  rw [if_neg hne]
  have hfilter : (w1 ++ ('-' :: (ws ++ w2))).filter (fun c => c ≠ softHyphen) =
      w1 ++ ('-' :: (ws ++ w2)) := by
    rw [List.filter_eq_self]
    intro a ha
    simp only [List.mem_append, List.mem_cons] at ha
    have hane : a ≠ softHyphen := by
      rcases ha with ha | ha | ha | ha
      · exact not_shy_of_word a (hw1 a ha)
      · subst ha; decide
      · exact not_shy_of_ws a (hws a ha)
      · exact not_shy_of_word a (hw2 a ha)
    simp [hane]
  rw [hfilter, dehyphSub_exact w1 ws w2 h1 hw1 h2 hw2 hws hnl]
  have hnonl : '\n' ∉ dehyphRepl w1 w2 := by
    intro hm
    unfold dehyphRepl at hm
    have hmem : '\n' ∈ w1 ∨ '\n' = '-' ∨ '\n' ∈ w2 := by
      by_cases hc : lowerS (w1 ++ '-' :: w2) ∈ COMMON_COMPOUND_KEEP
      · rw [if_pos hc] at hm
        simpa using hm
      · rw [if_neg hc] at hm
        rw [List.mem_append] at hm
        rcases hm with hm | hm
        · exact Or.inl hm
        · exact Or.inr (Or.inr hm)
    rcases hmem with hm' | hm' | hm'
    · exact word_not_nl _ (hw1 _ hm') rfl
    · simp at hm'
    · exact word_not_nl _ (hw2 _ hm') rfl
  rw [joinSub_no_nl _ hnonl]
  unfold dehyphRepl
  rfl

/-- C7 counterexample to the claim as stated: the code joins a hyphen-newline
split even when the next token begins with an uppercase letter and the joined
form is not allow-listed. -/
theorem C7_uppercase_counterexample :
    fixText "New-\nYork".data = "NewYork".data ∧
    ('A' ≤ 'Y' ∧ 'Y' ≤ 'Z') ∧
    lowerS ("New".data ++ '-' :: "York".data) ∉ COMMON_COMPOUND_KEEP := by
  refine ⟨by decide, by decide, by decide⟩

/-- Witness for C7 at a concrete allow-listed compound. -/
theorem C7_dehyphenation_witness :
    fixText ("co".data ++ ('-' :: (['\n'] ++ "founder".data))) =
      (if lowerS ("co".data ++ '-' :: "founder".data) ∈ COMMON_COMPOUND_KEEP
       then "co".data ++ '-' :: "founder".data
       else "co".data ++ "founder".data) :=
  C7_dehyphenation "co".data "founder".data ['\n'] (by decide) (by decide)
    (by decide) (by decide) (by decide) (by decide)

theorem ratioLe_iff (r : ℚ) (c n : Nat) (hn : 0 < n) :
    ratioLe r c n = true ↔ r ≤ (c : ℚ) / (n : ℚ) := by
  have hnq : (0 : ℚ) < (n : ℚ) := by exact_mod_cast hn
  have hden : (0 : ℚ) < (r.den : ℚ) := by exact_mod_cast r.den_pos
  have hmul : r * (r.den : ℚ) = (r.num : ℚ) := Rat.mul_den_eq_num r
  unfold ratioLe
  rw [decide_eq_true_eq, le_div_iff₀ hnq, ← mul_le_mul_right hden]
  rw [mul_right_comm, hmul]
  constructor <;> intro h <;> exact_mod_cast h

theorem bannerApply_topBlanked (th tk bh bk dry : Bool) (doc : Doc) :
    (bannerApply th tk bh bk dry doc).topBlanked = true →
      doc.topBlanked = true ∨ (th = true ∧ tk = false) := by
  cases th <;> cases tk <;> cases bh <;> cases bk <;> cases dry <;>
    simp [bannerApply]

theorem bannerApply_botBlanked (th tk bh bk dry : Bool) (doc : Doc) :
    (bannerApply th tk bh bk dry doc).botBlanked = true →
      doc.botBlanked = true ∨ (bh = true ∧ bk = false) := by
  cases th <;> cases tk <;> cases bh <;> cases bk <;> cases dry <;>
    simp [bannerApply]

theorem bannerApply_topKeep (th bh bk dry : Bool) (doc : Doc) :
    (bannerApply th true bh bk dry doc).topKept = true ∧
    (bannerApply th true bh bk dry doc).topBlanked = doc.topBlanked := by
  cases th <;> cases bh <;> cases bk <;> simp [bannerApply]

theorem bannerApply_topMiss (tk bh bk dry : Bool) (doc : Doc) (htk : tk = false) :
    (bannerApply false tk bh bk dry doc).topBlanked = doc.topBlanked ∧
    (bannerApply false tk bh bk dry doc).topKept = doc.topKept := by
  subst htk
  cases bh <;> cases bk <;> simp [bannerApply]

theorem bannerApply_botKeep (th tk bh dry : Bool) (doc : Doc) :
    (bannerApply th tk bh true dry doc).botKept = true ∧
    (bannerApply th tk bh true dry doc).botBlanked = doc.botBlanked := by
  cases th <;> cases tk <;> cases bh <;> simp [bannerApply]

theorem bannerApply_botMiss (th tk bk dry : Bool) (doc : Doc) (hbk : bk = false) :
    (bannerApply th tk false bk dry doc).botBlanked = doc.botBlanked ∧
    (bannerApply th tk false bk dry doc).botKept = doc.botKept := by
  subst hbk
  cases th <;> cases tk <;> simp [bannerApply]

theorem bannerLoop_length (tops bots : List Str) (n : Nat) (conf : BannerConf)
    (dry : Bool) :
    ∀ (docs : List (Doc × Bool)) (seenT seenB : List Str),
      (bannerLoop tops bots n conf dry seenT seenB docs).1.length = docs.length := by
  intro docs
  induction docs with
  | nil => intro seenT seenB; rfl
  | cons d rest ih =>
    intro seenT seenB
    obtain ⟨doc, isX⟩ := d
    simp only [bannerLoop, List.length_cons]
    rw [ih]

/-- Any document newly blanked by the loop satisfied the hit predicate. -/
theorem bannerLoop_blank_hit (tops bots : List Str) (n : Nat) (conf : BannerConf)
    (dry : Bool) :
    ∀ (docs : List (Doc × Bool)) (seenT seenB : List Str) (i : Nat),
      i < docs.length →
      (((bannerLoop tops bots n conf dry seenT seenB docs).1.getD i
          (defaultDoc, true)).1.topBlanked = true →
        (docs.getD i (defaultDoc, true)).1.topBlanked = true ∨
          topHitP tops n conf (docs.getD i (defaultDoc, true)).1 = true) ∧
      (((bannerLoop tops bots n conf dry seenT seenB docs).1.getD i
          (defaultDoc, true)).1.botBlanked = true →
        (docs.getD i (defaultDoc, true)).1.botBlanked = true ∨
          botHitP bots n conf (docs.getD i (defaultDoc, true)).1 = true) := by
  intro docs
  induction docs with
  | nil => intro seenT seenB i hi; simp at hi
  | cons d rest ih =>
    intro seenT seenB i hi
    obtain ⟨doc, isX⟩ := d
    simp only [bannerLoop]
    cases i with
    | zero =>
      simp only [List.getD_cons_zero]
      constructor
      · intro hbl
        rcases bannerApply_topBlanked _ _ _ _ _ doc hbl with h | h
        · exact Or.inl h
        · exact Or.inr (by simpa using h.1)
      · intro hbl
        rcases bannerApply_botBlanked _ _ _ _ _ doc hbl with h | h
        · exact Or.inl h
        · exact Or.inr (by simpa using h.1)
    | succ j =>
      simp only [List.getD_cons_succ]
      exact ih _ _ j (by simpa using hi)

/-- A heading-matching snippet leaves the corresponding top fields of its
document untouched. -/
theorem bannerLoop_heading_untouched (tops bots : List Str) (n : Nat)
    (conf : BannerConf) (dry : Bool) :
    ∀ (docs : List (Doc × Bool)) (seenT seenB : List Str) (i : Nat),
      i < docs.length →
      snippetMatchesHeading (docs.getD i (defaultDoc, true)).1.heading
        (docs.getD i (defaultDoc, true)).1.topSnippet = true →
      (((bannerLoop tops bots n conf dry seenT seenB docs).1.getD i
          (defaultDoc, true)).1.topBlanked =
        (docs.getD i (defaultDoc, true)).1.topBlanked ∧
       ((bannerLoop tops bots n conf dry seenT seenB docs).1.getD i
          (defaultDoc, true)).1.topKept =
        (docs.getD i (defaultDoc, true)).1.topKept) := by
  intro docs
  induction docs with
  | nil => intro seenT seenB i hi; simp at hi
  | cons d rest ih =>
    intro seenT seenB i hi hhead
    obtain ⟨doc, isX⟩ := d
    simp only [bannerLoop]
    cases i with
    | zero =>
      simp only [List.getD_cons_zero] at hhead ⊢
      have hth : topHitP tops n conf doc = false := by
        simp [topHitP, hhead]
      rw [hth]
      exact bannerApply_topMiss _ _ _ _ doc (by simp [hth])
    | succ j =>
      simp only [List.getD_cons_succ] at hhead ⊢
      exact ih _ _ j (by simpa using hi) hhead

/-- Bottom-snippet analog of `bannerLoop_heading_untouched`. -/
theorem bannerLoop_heading_untouched_bot (tops bots : List Str) (n : Nat)
    (conf : BannerConf) (dry : Bool) :
    ∀ (docs : List (Doc × Bool)) (seenT seenB : List Str) (i : Nat),
      i < docs.length →
      snippetMatchesHeading (docs.getD i (defaultDoc, true)).1.heading
        (docs.getD i (defaultDoc, true)).1.botSnippet = true →
      (((bannerLoop tops bots n conf dry seenT seenB docs).1.getD i
          (defaultDoc, true)).1.botBlanked =
        (docs.getD i (defaultDoc, true)).1.botBlanked ∧
       ((bannerLoop tops bots n conf dry seenT seenB docs).1.getD i
          (defaultDoc, true)).1.botKept =
        (docs.getD i (defaultDoc, true)).1.botKept) := by
  intro docs
  induction docs with
  | nil => intro seenT seenB i hi; simp at hi
  | cons d rest ih =>
    intro seenT seenB i hi hhead
    obtain ⟨doc, isX⟩ := d
    simp only [bannerLoop]
    cases i with
    | zero =>
      simp only [List.getD_cons_zero] at hhead ⊢
      have hbh : botHitP bots n conf doc = false := by
        simp [botHitP, hhead]
      rw [hbh]
      exact bannerApply_botMiss _ _ _ _ doc (by simp)
    | succ j =>
      simp only [List.getD_cons_succ] at hhead ⊢
      exact ih _ _ j (by simpa using hi) hhead

/-- With `keep_first` set, the first hit occurrence of a snippet whose text
is not yet in the seen set is kept and not blanked. -/
theorem bannerLoop_keep_first (tops bots : List Str) (n : Nat)
    (conf : BannerConf) (dry : Bool) (hkf : conf.keep_first = true) :
    ∀ (docs : List (Doc × Bool)) (seenT seenB : List Str) (i : Nat),
      i < docs.length →
      topHitP tops n conf (docs.getD i (defaultDoc, true)).1 = true →
      (docs.getD i (defaultDoc, true)).1.topSnippet ∉ seenT →
      (∀ j, j < i →
        (docs.getD j (defaultDoc, true)).1.topSnippet =
          (docs.getD i (defaultDoc, true)).1.topSnippet →
        topHitP tops n conf (docs.getD j (defaultDoc, true)).1 = false) →
      (((bannerLoop tops bots n conf dry seenT seenB docs).1.getD i
          (defaultDoc, true)).1.topKept = true ∧
       ((bannerLoop tops bots n conf dry seenT seenB docs).1.getD i
          (defaultDoc, true)).1.topBlanked =
        (docs.getD i (defaultDoc, true)).1.topBlanked) := by
  intro docs
  induction docs with
  | nil => intro seenT seenB i hi; simp at hi
  | cons d rest ih =>
    intro seenT seenB i hi hhit hnotseen hfirst
    obtain ⟨doc, isX⟩ := d
    simp only [bannerLoop]
    cases i with
    | zero =>
      simp only [List.getD_cons_zero] at hhit hnotseen ⊢
      have hcont : seenT.contains doc.topSnippet = false := by
        simpa using hnotseen
      rw [hhit, hkf, hcont]
      simpa using bannerApply_topKeep _ _ _ dry doc
    | succ j =>
      simp only [List.getD_cons_succ] at hhit hnotseen ⊢
      have hd0 : doc.topSnippet = (rest.getD j (defaultDoc, true)).1.topSnippet →
          topHitP tops n conf doc = false := by
        intro he
        have := hfirst 0 (Nat.succ_pos j)
        simpa using this he
      have hfirst' : ∀ j', j' < j →
          (rest.getD j' (defaultDoc, true)).1.topSnippet =
            (rest.getD j (defaultDoc, true)).1.topSnippet →
          topHitP tops n conf (rest.getD j' (defaultDoc, true)).1 = false := by
        intro j' hj' he
        have := hfirst (j' + 1) (by omega)
        simpa using this he
      by_cases hcond : (topHitP tops n conf doc && conf.keep_first &&
          !(seenT.contains doc.topSnippet)) = true
      · rw [if_pos hcond]
        refine ih _ _ j (by simpa using hi) hhit ?_ hfirst'
        intro hmem
        rw [List.mem_append] at hmem
        rcases hmem with hmem | hmem
        · exact hnotseen hmem
        · simp only [List.mem_singleton] at hmem
          have := hd0 hmem.symm
          simp [this] at hcond
      · rw [if_neg hcond]
        exact ih _ _ j (by simpa using hi) hhit hnotseen hfirst'

/-- Bottom-snippet analog of `bannerLoop_keep_first` (`seen_bot` in the
source). -/
theorem bannerLoop_keep_first_bot (tops bots : List Str) (n : Nat)
    (conf : BannerConf) (dry : Bool) (hkf : conf.keep_first = true) :
    ∀ (docs : List (Doc × Bool)) (seenT seenB : List Str) (i : Nat),
      i < docs.length →
      botHitP bots n conf (docs.getD i (defaultDoc, true)).1 = true →
      (docs.getD i (defaultDoc, true)).1.botSnippet ∉ seenB →
      (∀ j, j < i →
        (docs.getD j (defaultDoc, true)).1.botSnippet =
          (docs.getD i (defaultDoc, true)).1.botSnippet →
        botHitP bots n conf (docs.getD j (defaultDoc, true)).1 = false) →
      (((bannerLoop tops bots n conf dry seenT seenB docs).1.getD i
          (defaultDoc, true)).1.botKept = true ∧
       ((bannerLoop tops bots n conf dry seenT seenB docs).1.getD i
          (defaultDoc, true)).1.botBlanked =
        (docs.getD i (defaultDoc, true)).1.botBlanked) := by
  intro docs
  induction docs with
  | nil => intro seenT seenB i hi; simp at hi
  | cons d rest ih =>
    intro seenT seenB i hi hhit hnotseen hfirst
    obtain ⟨doc, isX⟩ := d
    simp only [bannerLoop]
    cases i with
    | zero =>
      simp only [List.getD_cons_zero] at hhit hnotseen ⊢
      have hcont : seenB.contains doc.botSnippet = false := by
        simpa using hnotseen
      rw [hhit, hkf, hcont]
      simpa using bannerApply_botKeep _ _ _ dry doc
    | succ j =>
      simp only [List.getD_cons_succ] at hhit hnotseen ⊢
      have hd0 : doc.botSnippet = (rest.getD j (defaultDoc, true)).1.botSnippet →
          botHitP bots n conf doc = false := by
        intro he
        have := hfirst 0 (Nat.succ_pos j)
        simpa using this he
      have hfirst' : ∀ j', j' < j →
          (rest.getD j' (defaultDoc, true)).1.botSnippet =
            (rest.getD j (defaultDoc, true)).1.botSnippet →
          botHitP bots n conf (rest.getD j' (defaultDoc, true)).1 = false := by
        intro j' hj' he
        have := hfirst (j' + 1) (by omega)
        simpa using this he
      by_cases hcond : (botHitP bots n conf doc && conf.keep_first &&
          !(seenB.contains doc.botSnippet)) = true
      · rw [if_pos hcond]
        refine ih _ _ j (by simpa using hi) hhit ?_ hfirst'
        intro hmem
        rw [List.mem_append] at hmem
        rcases hmem with hmem | hmem
        · exact hnotseen hmem
        · simp only [List.mem_singleton] at hmem
          have := hd0 hmem.symm
          simp [this] at hcond
      · rw [if_neg hcond]
        exact ih _ _ j (by simpa using hi) hhit hnotseen hfirst'

/-- C4 (amended): the banner pass touches nothing when the spine has fewer
than two documents; a top or bottom snippet is blanked only when its
candidate count c satisfies c ≥ 2 and c/N ≥ the configured minimum repeat
ratio; with `keep_first` set, the first occurrence (in spine order) of a top
or bottom snippet that does not match its document's heading is left
untouched and marked kept, and occurrences matching their document's heading
are always left untouched (and not counted as kept), in both positions. -/
theorem C4_banner_monotonicity (docs : List (Doc × Bool)) (conf : BannerConf)
    (dryRun : Bool) :
    (docs.length < 2 → remove_repeated_banners docs conf dryRun = (docs, 0, 0)) ∧
    (∀ i, i < docs.length →
      (docs.getD i (defaultDoc, true)).1.topBlanked = false →
      ((remove_repeated_banners docs conf dryRun).1.getD i
          (defaultDoc, true)).1.topBlanked = true →
      2 ≤ candCount (docs.map (fun db => db.1.topSnippet))
          (docs.getD i (defaultDoc, true)).1.topSnippet ∧
      conf.minRepeat ≤
        (candCount (docs.map (fun db => db.1.topSnippet))
            (docs.getD i (defaultDoc, true)).1.topSnippet : ℚ) /
          (docs.length : ℚ)) ∧
    (∀ i, i < docs.length →
      (docs.getD i (defaultDoc, true)).1.botBlanked = false →
      ((remove_repeated_banners docs conf dryRun).1.getD i
          (defaultDoc, true)).1.botBlanked = true →
      2 ≤ candCount (docs.map (fun db => db.1.botSnippet))
          (docs.getD i (defaultDoc, true)).1.botSnippet ∧
      conf.minRepeat ≤
        (candCount (docs.map (fun db => db.1.botSnippet))
            (docs.getD i (defaultDoc, true)).1.botSnippet : ℚ) /
          (docs.length : ℚ)) ∧
    (conf.keep_first = true → ∀ i, i < docs.length →
      topHitP (docs.map (fun db => db.1.topSnippet)) docs.length conf
        (docs.getD i (defaultDoc, true)).1 = true →
      (∀ j, j < i →
        (docs.getD j (defaultDoc, true)).1.topSnippet =
          (docs.getD i (defaultDoc, true)).1.topSnippet →
        topHitP (docs.map (fun db => db.1.topSnippet)) docs.length conf
          (docs.getD j (defaultDoc, true)).1 = false) →
      ¬ docs.length < 2 → conf.enabled = true →
      ((remove_repeated_banners docs conf dryRun).1.getD i
          (defaultDoc, true)).1.topKept = true ∧
      ((remove_repeated_banners docs conf dryRun).1.getD i
          (defaultDoc, true)).1.topBlanked =
        (docs.getD i (defaultDoc, true)).1.topBlanked) ∧
    (∀ i, i < docs.length →
      snippetMatchesHeading (docs.getD i (defaultDoc, true)).1.heading
        (docs.getD i (defaultDoc, true)).1.topSnippet = true →
      ((remove_repeated_banners docs conf dryRun).1.getD i
          (defaultDoc, true)).1.topBlanked =
        (docs.getD i (defaultDoc, true)).1.topBlanked ∧
      ((remove_repeated_banners docs conf dryRun).1.getD i
          (defaultDoc, true)).1.topKept =
        (docs.getD i (defaultDoc, true)).1.topKept) ∧
    (conf.keep_first = true → ∀ i, i < docs.length →
      botHitP (docs.map (fun db => db.1.botSnippet)) docs.length conf
        (docs.getD i (defaultDoc, true)).1 = true →
      (∀ j, j < i →
        (docs.getD j (defaultDoc, true)).1.botSnippet =
          (docs.getD i (defaultDoc, true)).1.botSnippet →
        botHitP (docs.map (fun db => db.1.botSnippet)) docs.length conf
          (docs.getD j (defaultDoc, true)).1 = false) →
      ¬ docs.length < 2 → conf.enabled = true →
      ((remove_repeated_banners docs conf dryRun).1.getD i
          (defaultDoc, true)).1.botKept = true ∧
      ((remove_repeated_banners docs conf dryRun).1.getD i
          (defaultDoc, true)).1.botBlanked =
        (docs.getD i (defaultDoc, true)).1.botBlanked) ∧
    (∀ i, i < docs.length →
      snippetMatchesHeading (docs.getD i (defaultDoc, true)).1.heading
        (docs.getD i (defaultDoc, true)).1.botSnippet = true →
      ((remove_repeated_banners docs conf dryRun).1.getD i
          (defaultDoc, true)).1.botBlanked =
        (docs.getD i (defaultDoc, true)).1.botBlanked ∧
      ((remove_repeated_banners docs conf dryRun).1.getD i
          (defaultDoc, true)).1.botKept =
        (docs.getD i (defaultDoc, true)).1.botKept) := by
  have hsplit : ∀ (P : Prop), (¬ conf.enabled = true ∨ docs.length < 2 →
      (remove_repeated_banners docs conf dryRun) = (docs, 0, 0)) := by
    intro _
    intro h
    unfold remove_repeated_banners
    rcases h with h | h
    · rw [if_pos (by simpa using h)]
    · by_cases he : conf.enabled
      · rw [if_neg (by simpa using he), if_pos h]
      · rw [if_pos (by simpa using he)]
  refine ⟨fun h => hsplit True (Or.inr h), ?_, ?_, ?_, ?_, ?_, ?_⟩
  · intro i hi h0 hbl
    by_cases hen : conf.enabled = true
    · by_cases hlen : docs.length < 2
      · rw [hsplit True (Or.inr hlen)] at hbl
        rw [h0] at hbl
        simp at hbl
      · unfold remove_repeated_banners at hbl
        rw [if_neg (by simp [hen]), if_neg hlen] at hbl
        have := (bannerLoop_blank_hit _ _ _ conf dryRun docs [] [] i hi).1 hbl
        rcases this with h | h
        · rw [h0] at h; simp at h
        · unfold topHitP at h
          simp only [Bool.and_eq_true] at h
          have hq := h.1.1
          unfold qualifies at hq
          simp only [Bool.and_eq_true, decide_eq_true_eq] at hq
          refine ⟨hq.1, ?_⟩
          rw [← ratioLe_iff conf.minRepeat _ docs.length (by omega)]
          exact hq.2
    · rw [hsplit True (Or.inl (by simp [hen]))] at hbl
      rw [h0] at hbl
      simp at hbl
  · intro i hi h0 hbl
    by_cases hen : conf.enabled = true
    · by_cases hlen : docs.length < 2
      · rw [hsplit True (Or.inr hlen)] at hbl
        rw [h0] at hbl
        simp at hbl
      · unfold remove_repeated_banners at hbl
        rw [if_neg (by simp [hen]), if_neg hlen] at hbl
        have := (bannerLoop_blank_hit _ _ _ conf dryRun docs [] [] i hi).2 hbl
        rcases this with h | h
        · rw [h0] at h; simp at h
        · unfold botHitP at h
          simp only [Bool.and_eq_true] at h
          have hq := h.1.1
          unfold qualifies at hq
          simp only [Bool.and_eq_true, decide_eq_true_eq] at hq
          refine ⟨hq.1, ?_⟩
          rw [← ratioLe_iff conf.minRepeat _ docs.length (by omega)]
          exact hq.2
    · rw [hsplit True (Or.inl (by simp [hen]))] at hbl
      rw [h0] at hbl
      simp at hbl
  · intro hkf i hi hhit hfirst hlen hen
    unfold remove_repeated_banners
    rw [if_neg (by simp [hen]), if_neg hlen]
    exact bannerLoop_keep_first _ _ _ conf dryRun hkf docs [] [] i hi hhit
      (by simp) hfirst
  · intro i hi hhead
    by_cases hen : conf.enabled = true
    · by_cases hlen : docs.length < 2
      · rw [hsplit True (Or.inr hlen)]
        exact ⟨rfl, rfl⟩
      · unfold remove_repeated_banners
        rw [if_neg (by simp [hen]), if_neg hlen]
        exact bannerLoop_heading_untouched _ _ _ conf dryRun docs [] [] i hi hhead
    · rw [hsplit True (Or.inl (by simp [hen]))]
      exact ⟨rfl, rfl⟩
  · intro hkf i hi hhit hfirst hlen hen
    unfold remove_repeated_banners
    rw [if_neg (by simp [hen]), if_neg hlen]
    exact bannerLoop_keep_first_bot _ _ _ conf dryRun hkf docs [] [] i hi hhit
      (by simp) hfirst
  · intro i hi hhead
    by_cases hen : conf.enabled = true
    · by_cases hlen : docs.length < 2
      · rw [hsplit True (Or.inr hlen)]
        exact ⟨rfl, rfl⟩
      · unfold remove_repeated_banners
        rw [if_neg (by simp [hen]), if_neg hlen]
        exact bannerLoop_heading_untouched_bot _ _ _ conf dryRun docs [] []
          i hi hhead
    · rw [hsplit True (Or.inl (by simp [hen]))]
      exact ⟨rfl, rfl⟩

/-- C4 counterexample to the claim as stated: with `keep_first` set and a
qualifying snippet, the first occurrence in spine order is left untouched but
is NOT counted as kept when its document's heading matches the snippet — the
kept slot goes to the second occurrence instead (the heading guard in the
source wraps both branches of the loop body). -/
theorem C4_keepfirst_counterexample :
    defaultBannerConf.keep_first = true ∧
    (c4docs.getD 0 (defaultDoc, true)).1.topSnippet = harvardTop ∧
    (c4docs.getD 1 (defaultDoc, true)).1.topSnippet = harvardTop ∧
    qualifies (c4docs.map (fun db => db.1.topSnippet)) c4docs.length
      defaultBannerConf.minRepeat harvardTop = true ∧
    ((remove_repeated_banners c4docs defaultBannerConf false).1.getD 0
        (defaultDoc, true)).1.topBlanked = false ∧
    ((remove_repeated_banners c4docs defaultBannerConf false).1.getD 0
        (defaultDoc, true)).1.topKept = false ∧
    ((remove_repeated_banners c4docs defaultBannerConf false).1.getD 1
        (defaultDoc, true)).1.topKept = true ∧
    (remove_repeated_banners c4docs defaultBannerConf false).2.2 = 1 := by
  decide

/-- Blanking by the full banner pass implies the qualification predicate held
for the document's top snippet. -/
theorem remove_banners_blank_top (docs : List (Doc × Bool)) (conf : BannerConf)
    (dryRun : Bool) (i : Nat) (hi : i < docs.length)
    (h0 : (docs.getD i (defaultDoc, true)).1.topBlanked = false)
    (hbl : ((remove_repeated_banners docs conf dryRun).1.getD i
        (defaultDoc, true)).1.topBlanked = true) :
    qualifies (docs.map (fun db => db.1.topSnippet)) docs.length conf.minRepeat
      (docs.getD i (defaultDoc, true)).1.topSnippet = true := by
  have hid : (¬ conf.enabled = true ∨ docs.length < 2) →
      remove_repeated_banners docs conf dryRun = (docs, 0, 0) := by
    intro h
    unfold remove_repeated_banners
    rcases h with h | h
    · rw [if_pos (by simpa using h)]
    · by_cases he : conf.enabled
      · rw [if_neg (by simpa using he), if_pos h]
      · rw [if_pos (by simpa using he)]
  by_cases hen : conf.enabled = true
  · by_cases hlen : docs.length < 2
    · rw [hid (Or.inr hlen)] at hbl
      rw [h0] at hbl
      simp at hbl
    · unfold remove_repeated_banners at hbl
      rw [if_neg (by simp [hen]), if_neg hlen] at hbl
      have hh := (bannerLoop_blank_hit _ _ _ conf dryRun docs [] [] i hi).1 hbl
      rcases hh with hh | hh
      · rw [h0] at hh; simp at hh
      · unfold topHitP at hh
        simp only [Bool.and_eq_true] at hh
        exact hh.1.1
  · rw [hid (Or.inl (by simp [hen]))] at hbl
    rw [h0] at hbl
    simp at hbl

/-- Bottom-snippet analog of `remove_banners_blank_top`. -/
theorem remove_banners_blank_bot (docs : List (Doc × Bool)) (conf : BannerConf)
    (dryRun : Bool) (i : Nat) (hi : i < docs.length)
    (h0 : (docs.getD i (defaultDoc, true)).1.botBlanked = false)
    (hbl : ((remove_repeated_banners docs conf dryRun).1.getD i
        (defaultDoc, true)).1.botBlanked = true) :
    qualifies (docs.map (fun db => db.1.botSnippet)) docs.length conf.minRepeat
      (docs.getD i (defaultDoc, true)).1.botSnippet = true := by
  have hid : (¬ conf.enabled = true ∨ docs.length < 2) →
      remove_repeated_banners docs conf dryRun = (docs, 0, 0) := by
    intro h
    unfold remove_repeated_banners
    rcases h with h | h
    · rw [if_pos (by simpa using h)]
    · by_cases he : conf.enabled
      · rw [if_neg (by simpa using he), if_pos h]
      · rw [if_pos (by simpa using he)]
  by_cases hen : conf.enabled = true
  · by_cases hlen : docs.length < 2
    · rw [hid (Or.inr hlen)] at hbl
      rw [h0] at hbl
      simp at hbl
    · unfold remove_repeated_banners at hbl
      rw [if_neg (by simp [hen]), if_neg hlen] at hbl
      have hh := (bannerLoop_blank_hit _ _ _ conf dryRun docs [] [] i hi).2 hbl
      rcases hh with hh | hh
      · rw [h0] at hh; simp at hh
      · unfold botHitP at hh
        simp only [Bool.and_eq_true] at hh
        exact hh.1.1
  · rw [hid (Or.inl (by simp [hen]))] at hbl
    rw [h0] at hbl
    simp at hbl

/-- A positive candidate count forces the snippet to be a banner candidate. -/
theorem looks_of_candCount_pos (tops : List Str) (t : Str)
    (h : 0 < candCount tops t) : looks_like_banner t = true := by
  unfold candCount at h
  rw [List.count_pos_iff] at h
  exact (List.mem_filter.mp h).2

/-- C5: a snippet string whose whitespace-collapsed form is longer than 120
characters or matches none of the boilerplate signature patterns is never
selected for removal — `looks_like_banner` rejects it — and no document is
blanked on account of it, no matter how often it repeats. -/
theorem C5_banner_candidate_gating (s : Str)
    (h : 120 < (collapseWs s).length ∨ bannerSigs (collapseWs s) = false) :
    looks_like_banner s = false ∧
    (∀ (docs : List (Doc × Bool)) (conf : BannerConf) (dryRun : Bool) (i : Nat),
      i < docs.length →
      (docs.getD i (defaultDoc, true)).1.topSnippet = s →
      (docs.getD i (defaultDoc, true)).1.topBlanked = false →
      ((remove_repeated_banners docs conf dryRun).1.getD i
          (defaultDoc, true)).1.topBlanked = false) ∧
    (∀ (docs : List (Doc × Bool)) (conf : BannerConf) (dryRun : Bool) (i : Nat),
      i < docs.length →
      (docs.getD i (defaultDoc, true)).1.botSnippet = s →
      (docs.getD i (defaultDoc, true)).1.botBlanked = false →
      ((remove_repeated_banners docs conf dryRun).1.getD i
          (defaultDoc, true)).1.botBlanked = false) := by
  have hlb : looks_like_banner s = false := by
    unfold looks_like_banner
    by_cases h0 : collapseWs s = []
    · simp [h0]
    · rcases h with h | h
      · simp [h0, h]
      · by_cases h120 : 120 < (collapseWs s).length
        · simp [h0, h120]
        · simp [h0, h120, h]
  refine ⟨hlb, ?_, ?_⟩
  · intro docs conf dryRun i hi hs h0
    cases hout : ((remove_repeated_banners docs conf dryRun).1.getD i
        (defaultDoc, true)).1.topBlanked
    · rfl
    · exfalso
      have hq := remove_banners_blank_top docs conf dryRun i hi h0 hout
      rw [hs] at hq
      unfold qualifies at hq
      simp only [Bool.and_eq_true, decide_eq_true_eq] at hq
      have h2 := hq.1
      have hl := looks_of_candCount_pos (docs.map (fun db => db.1.topSnippet)) s
        (by omega)
      rw [hlb] at hl
      exact absurd hl (by simp)
  · intro docs conf dryRun i hi hs h0
    cases hout : ((remove_repeated_banners docs conf dryRun).1.getD i
        (defaultDoc, true)).1.botBlanked
    · rfl
    · exfalso
      have hq := remove_banners_blank_bot docs conf dryRun i hi h0 hout
      rw [hs] at hq
      unfold qualifies at hq
      simp only [Bool.and_eq_true, decide_eq_true_eq] at hq
      have h2 := hq.1
      have hl := looks_of_candCount_pos (docs.map (fun db => db.1.botSnippet)) s
        (by omega)
      rw [hlb] at hl
      exact absurd hl (by simp)

/-- Witness for C5 at a concrete free-form prose snippet. -/
theorem C5_banner_candidate_gating_witness :
    looks_like_banner "Plain prose with nothing special about it".data = false :=
  (C5_banner_candidate_gating "Plain prose with nothing special about it".data
    (Or.inr (by decide))).1

/-- Witness for C4: on the concrete three-document spine the second
occurrence — the first whose heading does not match — is kept and not
blanked. -/
theorem C4_banner_monotonicity_witness :
    (((remove_repeated_banners c4docs defaultBannerConf false).1.getD 1
        (defaultDoc, true)).1.topKept = true ∧
     ((remove_repeated_banners c4docs defaultBannerConf false).1.getD 1
        (defaultDoc, true)).1.topBlanked =
      (c4docs.getD 1 (defaultDoc, true)).1.topBlanked) ∧
    (((remove_repeated_banners c4botdocs defaultBannerConf false).1.getD 1
        (defaultDoc, true)).1.botKept = true ∧
     ((remove_repeated_banners c4botdocs defaultBannerConf false).1.getD 1
        (defaultDoc, true)).1.botBlanked =
      (c4botdocs.getD 1 (defaultDoc, true)).1.botBlanked) :=
  ⟨(C4_banner_monotonicity c4docs defaultBannerConf false).2.2.2.1 (by decide)
    1 (by decide) (by decide)
    (fun j hj he => by interval_cases j; decide)
    (by decide) (by decide),
   (C4_banner_monotonicity c4botdocs defaultBannerConf false).2.2.2.2.2.1
    (by decide) 1 (by decide) (by decide)
    (fun j hj he => by interval_cases j; decide)
    (by decide) (by decide)⟩

theorem ensureIdsCore_none_assigned (st : IdMaps) (k : Str) :
    (ensureIdsCore st k none).2.1 = specRefId k (alGet st.seq k 0 + 1) := by
  unfold ensureIdsCore
  by_cases h : alGet st.seq k 0 + 1 = 1 <;> simp [h, specRefId]

theorem ensureIdsFor_none_assigned (st : IdState) (k : Str) (b : Bool) :
    (ensureIdsFor st k b none).2.1 = specRefId k (seqCnt st (k, b) + 1) := by
  cases b <;> simp [ensureIdsFor, seqCnt, ensureIdsCore_none_assigned]

theorem ensureIdsCore_seq (st : IdMaps) (k : Str) (r : Option Str) :
    (ensureIdsCore st k r).1.seq = alSet st.seq k (alGet st.seq k 0 + 1) := by
  unfold ensureIdsCore
  by_cases h : alGet st.seq k 0 + 1 = 1 <;> simp [h]

theorem seqCnt_ensureIdsFor (st : IdState) (k : Str) (b : Bool) (r : Option Str)
    (e' : Str × Bool) :
    seqCnt (ensureIdsFor st k b r).1 e' =
      seqCnt st e' + (if e' = (k, b) then 1 else 0) := by
  obtain ⟨k', b'⟩ := e'
  cases b <;> cases b'
  · simp only [ensureIdsFor, seqCnt, Prod.mk.injEq, and_true]
    by_cases hk : k = k'
    · subst hk; simp [ensureIdsCore_seq, alGet_alSet]
    · have hk2 : ¬ k' = k := fun h => hk h.symm
      simp [hk, hk2, ensureIdsCore_seq, alGet_alSet]
  · simp [ensureIdsFor, seqCnt]
  · simp [ensureIdsFor, seqCnt]
  · simp only [ensureIdsFor, seqCnt, Prod.mk.injEq, and_true]
    by_cases hk : k = k'
    · subst hk; simp [ensureIdsCore_seq, alGet_alSet]
    · have hk2 : ¬ k' = k := fun h => hk h.symm
      simp [hk, hk2, ensureIdsCore_seq, alGet_alSet]

theorem runIds_eq_specTrace (evs : List (Str × Bool)) :
    ∀ st, runIds st evs = specTrace st evs := by
  induction evs with
  | nil => intro st; rfl
  | cons e evs ih =>
    intro st
    obtain ⟨k, b⟩ := e
    show (ensureIdsFor st k b none).2.1 ::
        runIds (ensureIdsFor st k b none).1 evs = _
    rw [ih]
    unfold specTrace
    rw [List.length_cons, List.range_succ_eq_map, List.map_cons, List.map_map]
    congr 1
    · simp [ensureIdsFor_none_assigned]
    · apply List.map_congr_left
      intro i _
      simp only [Function.comp_apply, Nat.succ_eq_add_one, List.getD_eq_getElem?_getD,
        List.getElem?_cons_succ, List.take_succ_cons, List.count_cons,
        seqCnt_ensureIdsFor, beq_iff_eq]
      by_cases h : (evs[i]?).getD ([], true) = (k, b)
      · rw [if_pos h, if_pos h.symm]
        congr 1
        omega
      · rw [if_neg h, if_neg (fun hh => h hh.symm)]
        congr 1

theorem seqCnt_empty (e : Str × Bool) : seqCnt IdState.empty e = 0 := by
  obtain ⟨k, b⟩ := e
  cases b <;> simp [seqCnt, IdState.empty, IdMaps.empty, alGet]

theorem count_take_succ {α : Type} [BEq α] [LawfulBEq α] (l : List α) (i : Nat)
    (hi : i < l.length) (d : α) :
    (l.take (i + 1)).count (l.getD i d) = (l.take i).count (l.getD i d) + 1 := by
  rw [List.take_succ, List.count_append]
  have hsome : l[i]? = some (l.getD i d) := by
    rw [List.getD_eq_getElem l d hi]
    exact List.getElem?_eq_getElem hi
  rw [hsome]
  simp

theorem runIds_getD (evs : List (Str × Bool)) (i : Nat) (hi : i < evs.length) :
    (runIds IdState.empty evs).getD i [] =
      specRefId (evs.getD i ([], true)).1
        ((evs.take i).count (evs.getD i ([], true)) + 1) := by
  rw [runIds_eq_specTrace]
  unfold specTrace
  have hlen : i < ((List.range evs.length).map fun j =>
      specRefId (evs.getD j ([], true)).1
        (seqCnt IdState.empty (evs.getD j ([], true)) +
          (evs.take j).count (evs.getD j ([], true)) + 1)).length := by
    simpa using hi
  rw [List.getD_eq_getElem _ _ hlen, List.getElem_map, List.getElem_range,
    seqCnt_empty, Nat.zero_add]

theorem runIds_length (evs : List (Str × Bool)) :
    (runIds IdState.empty evs).length = evs.length := by
  rw [runIds_eq_specTrace]
  unfold specTrace
  simp

/-- C3: within any processed document in which the matched references carried
no pre-existing ids (every `ensure_ids_for` call receives `rid_existing =
None`; keys are the digit strings and symbol names the pass extracts), the
assigned ids are pairwise distinct, the first reference for a given key
receives `ref-<key>`, and the n-th reference for that key receives
`ref-<key>-<n>` (n = 2, 3, ...) in document order. -/
theorem C3_reference_id_scheme (evs : List (Str × Bool))
    (hv : ∀ e ∈ evs, validEv e) :
    (runIds IdState.empty evs).Pairwise (· ≠ ·) ∧
    ∀ i, i < evs.length →
      (runIds IdState.empty evs).getD i [] =
        specRefId (evs.getD i ([], true)).1
          ((evs.take (i + 1)).count (evs.getD i ([], true))) := by
  constructor
  · rw [List.pairwise_iff_getElem]
    intro i j hi hj hij
    rw [runIds_length] at hi hj
    have hi' : i < (runIds IdState.empty evs).length := by rwa [runIds_length]
    have hj' : j < (runIds IdState.empty evs).length := by rwa [runIds_length]
    intro heq
    have e1 : (runIds IdState.empty evs)[i] =
        specRefId (evs.getD i ([], true)).1
          ((evs.take i).count (evs.getD i ([], true)) + 1) :=
      (List.getD_eq_getElem _ [] hi').symm.trans (runIds_getD evs i hi)
    have e2 : (runIds IdState.empty evs)[j] =
        specRefId (evs.getD j ([], true)).1
          ((evs.take j).count (evs.getD j ([], true)) + 1) :=
      (List.getD_eq_getElem _ [] hj').symm.trans (runIds_getD evs j hj)
    rw [e1, e2] at heq
    have hmemi : evs.getD i ([], true) ∈ evs := by
      rw [List.getD_eq_getElem _ _ hi]
      exact List.getElem_mem hi
    have hmemj : evs.getD j ([], true) ∈ evs := by
      rw [List.getD_eq_getElem _ _ hj]
      exact List.getElem_mem hj
    obtain ⟨hev, hcnt⟩ :=
      specRefId_inj _ _ _ _ (hv _ hmemi) (hv _ hmemj) heq
    have hcj_ge : (evs.take (i + 1)).count (evs.getD i ([], true)) ≤
        (evs.take j).count (evs.getD i ([], true)) := by
      have h1 : evs.take (i + 1) = (evs.take j).take (i + 1) := by
        rw [List.take_take]
        congr 1
        omega
      rw [h1]
      exact List.Sublist.count_le (List.take_prefix _ _).sublist _
    rw [count_take_succ evs i hi] at hcj_ge
    rw [← hev] at hcnt
    omega
  · intro i hi
    rw [runIds_getD evs i hi, count_take_succ evs i hi]

/-- Witness for C3 at a concrete event list with repeated numeric and
symbolic keys. -/
theorem C3_reference_id_scheme_witness :
    (∀ e ∈ ([(['1'], true), (['1'], true), (['2'], true), (starS, false),
        (starS, false)] : List (Str × Bool)), validEv e) ∧
    (runIds IdState.empty [(['1'], true), (['1'], true), (['2'], true),
        (starS, false), (starS, false)]).Pairwise (· ≠ ·) :=
  ⟨by decide, (C3_reference_id_scheme _ (by decide)).1⟩

/-- C10: `Config.hash` hashes a payload built only from `inplace`, `banner`,
`audit` and `blacklist_file`; any two configurations agreeing on those four
fields — in particular ones differing in `force` and/or `dry_run` — produce
the same fingerprint under every digest function, so those flags can never
cause or prevent an idempotency-marker match. -/
theorem C10_fingerprint_noninterference (f : Str → Str) (c1 c2 : Config)
    (h1 : c1.inplace = c2.inplace) (h2 : c1.banner = c2.banner)
    (h3 : c1.audit = c2.audit) (h4 : c1.blacklist_file = c2.blacklist_file) :
    configHashWith f c1 = configHashWith f c2 := by
  unfold configHashWith configPayload
  rw [h1, h2, h3, h4]

/-- Witness for C10: `cfgA` and `cfgB` differ exactly in `force` and
`dry_run` and fingerprint identically. -/
theorem C10_fingerprint_noninterference_witness :
    configHashWith id cfgA = configHashWith id cfgB ∧
    ¬ cfgA.force = cfgB.force ∧ ¬ cfgA.dry_run = cfgB.dry_run :=
  ⟨C10_fingerprint_noninterference id cfgA cfgB rfl rfl rfl rfl,
   by decide, by decide⟩

/-- C8: without a locatable package descriptor, `process_single_epub`
reports a row with status `fail`, note `no opf` and all metric counters
zero, and produces no output archive — nothing is written, so the source
file stays untouched. -/
theorem C8_missing_descriptor (cfg : Config) (hashFn : Str → Str)
    (hb : Bool) (arch : Archive) (h : arch.opf = none) :
    process_single_epub cfg hashFn hb arch =
      ⟨"fail".data, "no opf".data, List.replicate 8 0, none⟩ := by
  unfold process_single_epub
  rw [h]

/-- Witness for C8 on a concrete descriptor-less archive. -/
theorem C8_missing_descriptor_witness :
    noOpfArch.opf = none ∧
    process_single_epub cfgA id false noOpfArch =
      ⟨"fail".data, "no opf".data, List.replicate 8 0, none⟩ :=
  ⟨rfl, C8_missing_descriptor cfgA id false noOpfArch rfl⟩

theorem fixSoftHyphens_changed (x : Doc × Metrics × Bool) (h : x.2.2 = true) :
    (fixSoftHyphens x).2.2 = true := by
  unfold fixSoftHyphens
  split <;> simp [h]

theorem fixLinebreaks_changed (x : Doc × Metrics × Bool) (h : x.2.2 = true) :
    (fixLinebreaks x).2.2 = true := by
  unfold fixLinebreaks
  split <;> simp [h]

theorem fixIllegit_changed (x : Doc × Metrics × Bool) (h : x.2.2 = true) :
    (fixIllegit x).2.2 = true := by
  unfold fixIllegit
  split <;> simp [h]

theorem fixEmpties_changed (x : Doc × Metrics × Bool) (h : x.2.2 = true) :
    (fixEmpties x).2.2 = true := by
  unfold fixEmpties
  split <;> simp [h]

theorem fixBlacklist_changed (hb : Bool) (x : Doc × Metrics × Bool)
    (h : x.2.2 = true) : (fixBlacklist hb x).2.2 = true := by
  unfold fixBlacklist
  split <;> simp [h]

/-- C6 (amended): the write-back is gated only by the dry-run flag.  The
source sets `changed = True` unconditionally right after the charset step,
so every successfully parsed spine document is rewritten exactly when the
run is not a dry run — whether or not any fix applied. -/
theorem C6_write_gate (doc : Doc) (isX : Bool) (cfg : Config) (m : Metrics)
    (sk hb : Bool) :
    (process_single_xhtml doc isX cfg m sk hb).written = !cfg.dry_run := by
  unfold process_single_xhtml
  by_cases hsk : sk = true
  · rw [if_pos hsk]
    simp
  · rw [if_neg hsk]
    have h4 : (fixEmpties (fixIllegit (fixLinebreaks (fixSoftHyphens
        ({ doc with hasCharset := true }, m, true))))).2.2 = true :=
      fixEmpties_changed _ (fixIllegit_changed _ (fixLinebreaks_changed _
        (fixSoftHyphens_changed _ rfl)))
    simp only [h4, Bool.true_or]
    rw [fixBlacklist_changed _ _ rfl]
    simp

/-- Counterexample to C6 as stated: a parsed document to which no fix
applies — the processing leaves the document and the metrics completely
unchanged — is still written back on a non-dry run. -/
theorem C6_counterexample :
    cfgA.dry_run = false ∧
    (process_single_xhtml cleanDoc true cfgA Metrics.zero false false).doc
      = cleanDoc ∧
    (process_single_xhtml cleanDoc true cfgA Metrics.zero false false).metrics
      = Metrics.zero ∧
    (process_single_xhtml cleanDoc true cfgA Metrics.zero false false).written
      = true := by
  decide

/-- The skip branch of `process_single_xhtml` in one equation. -/
theorem xhtml_skip (doc : Doc) (isX : Bool) (cfg : Config) (m : Metrics)
    (hb : Bool) :
    process_single_xhtml doc isX cfg m true hb =
      ⟨{ doc with hasCharset := true }, !cfg.dry_run, [], [], m⟩ := by
  unfold process_single_xhtml
  simp

/-- C9 (amended): a document processed with `skip_content_edits` — which
pass 1 sets exactly for file names starting with `nav` — receives only the
charset insertion, contributes empty reference maps and leaves the metrics
unchanged; at the spine level such a document enters the accumulator with
only the charset change and no map or metric contribution.  (The original
claim's "only the charset-meta insertion may still alter it" fails: the
spine-level banner and backlink passes still modify nav documents, see the
counterexample.) -/
theorem C9_nav_exemption :
    (∀ (doc : Doc) (isX : Bool) (cfg : Config) (m : Metrics) (hb : Bool),
      (process_single_xhtml doc isX cfg m true hb).doc
          = { doc with hasCharset := true } ∧
      (process_single_xhtml doc isX cfg m true hb).numMap = [] ∧
      (process_single_xhtml doc isX cfg m true hb).symMap = [] ∧
      (process_single_xhtml doc isX cfg m true hb).metrics = m) ∧
    ∀ (cfg : Config) (hb : Bool) (acc : Pass1Out) (db : Doc × Bool),
      "nav".data.isPrefixOf (lowerS db.1.path) = true →
      (pass1Step cfg hb acc db).docs = acc.docs ++
        [((if cfg.dry_run then db.1 else { db.1 with hasCharset := true }),
          db.2)] ∧
      (pass1Step cfg hb acc db).numLoc = acc.numLoc ∧
      (pass1Step cfg hb acc db).symLoc = acc.symLoc ∧
      (pass1Step cfg hb acc db).metrics = acc.metrics := by
  constructor
  · intro doc isX cfg m hb
    rw [xhtml_skip]
    exact ⟨rfl, rfl, rfl, rfl⟩
  · intro cfg hb acc db hnav
    unfold pass1Step
    rw [hnav]
    cases hdry : cfg.dry_run <;> simp [xhtml_skip, hdry]

/-- Witness for C9 at a concrete nav document. -/
theorem C9_nav_exemption_witness :
    (process_single_xhtml (mkBannerDoc "nav.xhtml" harvardTop none) true cfgA
      Metrics.zero true false).numMap = [] ∧
    (pass1Step cfgA false ⟨[], [], [], [], Metrics.zero⟩
      (mkBannerDoc "nav.xhtml" harvardTop none, true)).numLoc = [] :=
  ⟨(C9_nav_exemption.1 (mkBannerDoc "nav.xhtml" harvardTop none) true cfgA
      Metrics.zero false).2.1,
   (C9_nav_exemption.2 cfgA false ⟨[], [], [], [], Metrics.zero⟩
      (mkBannerDoc "nav.xhtml" harvardTop none, true) (by decide)).2.1⟩

/-- Counterexample to C9 as stated: in a full non-dry run over a three-file
spine with a shared running header, the `nav.xhtml` document is altered
beyond the charset insertion — the spine-level banner pass blanks its
header. -/
theorem C9_counterexample :
    "nav".data.isPrefixOf
      (lowerS ((navArch.docs.getD 1 (defaultDoc, true)).1.path)) = true ∧
    (navArch.docs.getD 1 (defaultDoc, true)).1.topBlanked = false ∧
    ((process_single_epub cfgA id false navArch).output.map (fun out =>
      (out.docs.getD 1 (defaultDoc, true)).1.topBlanked)).getD false
      = true := by
  decide

theorem isPrefixOf_self_append (l r : Str) : l.isPrefixOf (l ++ r) = true := by
  induction l with
  | nil => simp [List.isPrefixOf]
  | cons a l ih => simp [List.isPrefixOf, ih]

theorem strContains_mid (pat pre suf : Str) :
    strContains pat (pre ++ (pat ++ suf)) = true := by
  induction pre with
  | nil =>
    cases pat with
    | nil => cases suf <;> simp [strContains, List.isPrefixOf]
    | cons c p => simp [strContains, isPrefixOf_self_append]
  | cons c pre ih => simp [strContains, ih]

/-- The freshly written marker is always recognized again. -/
theorem already_processed_mark (t : OpfTree) (h : Str) :
    already_processed (mark_idempotent t h) h = true := by
  unfold already_processed mark_idempotent
  rw [List.any_append]
  have h1 := strContains_mid h (TOOL_TAG ++ " (".data) (")".data)
  have h2 := strContains_mid TOOL_TAG [] (" (".data ++ (h ++ ")".data))
  simp only [List.any_append, List.any_cons, List.any_nil, Bool.or_false]
  simp at h1 h2 ⊢
  exact Or.inr ⟨h1, h2⟩

/-- C1: `mark_idempotent` writes a marker that `already_processed` accepts
for the same fingerprint, and re-running `process_single_epub` on a produced
output archive with the same configuration and `force` unset yields status
`skip` and no output. -/
theorem C1_marker_skip_roundtrip :
    (∀ (t : OpfTree) (h : Str),
      already_processed (mark_idempotent t h) h = true) ∧
    ∀ (cfg : Config) (hashFn : Str → Str) (hb : Bool) (arch out : Archive),
      cfg.force = false →
      (process_single_epub cfg hashFn hb arch).output = some out →
      (process_single_epub cfg hashFn hb out).status = "skip".data ∧
      (process_single_epub cfg hashFn hb out).output = none := by
  refine ⟨already_processed_mark, ?_⟩
  intro cfg hashFn hb arch out hforce hout
  unfold process_single_epub at hout
  cases harch : arch.opf with
  | none =>
    rw [harch] at hout
    simp at hout
  | some opfTree =>
    rw [harch] at hout
    simp only [] at hout
    by_cases hskip : (!cfg.force &&
        already_processed opfTree (configHashWith hashFn cfg)) = true
    · rw [if_pos hskip] at hout
      simp at hout
    · rw [if_neg hskip] at hout
      unfold epubCont at hout
      by_cases hdry : cfg.dry_run = true
      · simp [hdry] at hout
      · rw [Bool.not_eq_true] at hdry
        simp only [hdry, Bool.false_eq_true, if_false,
          Option.some.injEq] at hout
        have hopf : out.opf = some (mark_idempotent opfTree
            (configHashWith hashFn cfg)) := by
          rw [← hout]
          rfl
        unfold process_single_epub
        rw [hopf, hforce]
        simp [already_processed_mark]

/-- Witness for C1: the second run on scenario A's output skips. -/
theorem C1_marker_skip_roundtrip_witness :
    (process_single_epub cfgA id false
        ((process_single_epub cfgA id false (scenarioAArch 14)).output.getD
          noOpfArch)).status = "skip".data ∧
    (process_single_epub cfgA id false
        ((process_single_epub cfgA id false (scenarioAArch 14)).output.getD
          noOpfArch)).output = none :=
  C1_marker_skip_roundtrip.2 cfgA id false (scenarioAArch 14)
    ((process_single_epub cfgA id false (scenarioAArch 14)).output.getD
      noOpfArch) rfl rfl

/-- Unfolding of `process_single_epub` past the descriptor and marker
guards. -/
theorem process_single_epub_cont (cfg : Config) (hashFn : Str → Str)
    (hb : Bool) (arch : Archive) (opfT : OpfTree) (h : arch.opf = some opfT)
    (hskip : (!cfg.force &&
      already_processed opfT (configHashWith hashFn cfg)) = false) :
    process_single_epub cfg hashFn hb arch =
      epubCont cfg (configHashWith hashFn cfg) opfT
        (pass1 cfg hb arch.docs) := by
  unfold process_single_epub
  simp only [h, hskip, Bool.false_eq_true, if_false]

set_option maxRecDepth 8000 in
set_option maxHeartbeats 2000000 in
/-- C2 (amended): on scenario A — one spine document `chapter1.xhtml` with
one reference of text `1` and one note `<p id="fn1">` of at least 10
characters — the full non-dry run wraps the reference in a forward link with
href `#fn1`, assigns it the id `ref-1`, and the backlink pass gives the note
exactly one backlink anchor; the anchor's href is `chapter1.xhtml#ref-1`
(not `#ref-1` as originally claimed, since `rel_href` always prefixes the
target file name). -/
theorem C2_scenario_a (L : Nat) (hL : 10 ≤ L) (hashFn : Str → Str) :
    process_single_epub cfgA hashFn false (scenarioAArch L) =
      ⟨"ok".data, "done".data, [0, 1, 1, 1, 0, 0, 0, 0, 0],
       some (scenarioAOut hashFn L)⟩ := by
  have h1 : is_note_block (scenarioANote L) = true := by
    have he : is_note_block (scenarioANote L) = decide (10 ≤ L) := rfl
    rw [he]
    exact decide_eq_true hL
  have hnt : numericTargets [scenarioANote L] = [(['1'], 0)] := by
    unfold numericTargets numericTargetsGo
    simp only [h1]
    rfl
  have hnotes : (scenarioADoc L).notes = [scenarioANote L] := rfl
  have hlink : ensure_bidirectional_links_per_file (scenarioADoc L) =
      ({ scenarioADoc L with
          refs := [⟨⟨['1'], some "ref-1".data, some "#fn1".data⟩, none⟩] },
       1, 0, 1, [(['1'], ["ref-1".data])], []) := by
    unfold ensure_bidirectional_links_per_file
    rw [hnotes, hnt]
    rfl
  have hroles : ensure_note_roles [scenarioANote L] =
      ([⟨['p'], some "fn1".data, some "doc-footnote".data, L, []⟩], 1) := by
    unfold ensure_note_roles
    simp only [h1, List.map_cons, List.map_nil, List.filter]
    rfl
  have hmnotes : ({ scenarioADoc L with
      refs := [⟨⟨['1'], some "ref-1".data, some "#fn1".data⟩, none⟩] } :
        Doc).notes = [scenarioANote L] := rfl
  have hs41 : (fixEmpties (fixIllegit (fixLinebreaks (fixSoftHyphens
      ({ scenarioADoc L with hasCharset := true }, Metrics.zero,
        true))))).1 = scenarioADoc L := rfl
  have hs421 : (fixEmpties (fixIllegit (fixLinebreaks (fixSoftHyphens
      ({ scenarioADoc L with hasCharset := true }, Metrics.zero,
        true))))).2.1 = Metrics.zero := rfl
  have hs422 : (fixEmpties (fixIllegit (fixLinebreaks (fixSoftHyphens
      ({ scenarioADoc L with hasCharset := true }, Metrics.zero,
        true))))).2.2 = true := rfl
  have hx : process_single_xhtml (scenarioADoc L) true cfgA Metrics.zero
      false false =
      ⟨{ scenarioADoc L with
          refs := [⟨⟨['1'], some "ref-1".data, some "#fn1".data⟩, none⟩],
          notes := [⟨['p'], some "fn1".data, some "doc-footnote".data, L,
            []⟩] },
       true, [(['1'], ["ref-1".data])], [], scenarioAMetrics⟩ := by
    unfold process_single_xhtml
    rw [if_neg (by decide)]
    simp only [hs41, hs421, hs422, hlink, hmnotes, hroles]
    rfl
  have hskipn : ("nav".data.isPrefixOf (lowerS (scenarioADoc L).path))
      = false := rfl
  have hp1 : pass1 cfgA false [(scenarioADoc L, true)] =
      ⟨[({ scenarioADoc L with
            refs := [⟨⟨['1'], some "ref-1".data, some "#fn1".data⟩, none⟩],
            notes := [⟨['p'], some "fn1".data, some "doc-footnote".data, L,
              []⟩] }, true)],
       [(['1'], [("chapter1.xhtml".data, "ref-1".data)])], [],
       [("chapter1.xhtml".data, "fn1".data, true)], scenarioAMetrics⟩ := by
    unfold pass1 pass1Step
    simp only [List.foldl_cons, List.foldl_nil, hskipn, hx]
    rfl
  rw [process_single_epub_cont cfgA hashFn false (scenarioAArch L) ⟨[]⟩
    rfl rfl]
  rw [show (scenarioAArch L).docs = [(scenarioADoc L, true)] from rfl, hp1]
  rfl

/-- Witness for C2 at a 14-character note. -/
theorem C2_scenario_a_witness :
    10 ≤ 14 ∧
    process_single_epub cfgA id false (scenarioAArch 14) =
      ⟨"ok".data, "done".data, [0, 1, 1, 1, 0, 0, 0, 0, 0],
       some (scenarioAOut id 14)⟩ :=
  ⟨by decide, C2_scenario_a 14 (by decide) id⟩

/-- Counterexample to C2 as stated: the single backlink's href is
`chapter1.xhtml#ref-1`, which differs from the claimed `#ref-1`. -/
theorem C2_counterexample :
    ((process_single_epub cfgA id false (scenarioAArch 14)).output.map
      (fun out => ((out.docs.getD 0 (defaultDoc, true)).1.notes.getD 0
        default).backlinks)).getD []
      = [("chapter1.xhtml#ref-1".data, "ref-1".data)] ∧
    ¬ ("chapter1.xhtml#ref-1".data = "#ref-1".data) := by
  decide

end EpubStd
